import Mathlib

/-!
# The evaluator of `libraries/evaluators/tcc/Evaluator.tcc`

A shallow embedding of the class template `Evaluator<PredictorType, AggregatorTypes...>`
and of the two free helpers `PrintVector` and `FlattenJaggedVector`.

* `double` is an arbitrary type `ρ` with a zero (the literal `0.0`); nothing below depends on
  floating-point arithmetic.
* The dataset is the finite list of examples that both `GetExampleIterator` and
  `GetExampleReferenceIterator` walk through.
* The aggregator pack is a list of aggregator states of a single state type `σ` (a sum type
  when the pack is heterogeneous) together with the record of member functions `Aggregator`.
  Aggregators are values: copying one gives an independent object.
* `_evaluateCounter` and `evaluationFrequency` are declared in `Evaluator.h`, which is not among
  the sources; they are natural numbers here and the counter starts at zero.
* `a % 0` is undefined in C++; the theorems about the frequency check assume `1 ≤ evaluationFrequency`.
* An output stream records the sequence of its insertions: each `os << x` adds one item (a
  string, a number with the formatting state it is written under, a character or `std::endl`).
  The written text is the sequence of characters of these items, a number being rendered by
  the number formatting of the standard library, which is a parameter `render`. Lines are the
  pieces of the text between line breaks and tokens the pieces of a line between tabs.
* Member functions return the object after the call next to their value; for a `const` member
  that is the object it was called on.
-/

namespace ell
namespace evaluators

/-! ## Data model -/

/-- What the evaluator reads of an example: `GetDataVector()`, `GetMetadata().label` and
`GetMetadata().weight`. -/
structure Example (δ ρ : Type) where
  dataVector : δ
  label : ρ
  weight : ρ

/-- The configuration `EvaluatorParameters`. -/
structure EvaluatorParameters where
  evaluationFrequency : Nat
  addZeroEvaluation : Bool
deriving DecidableEq, Repr

/-- The member functions an aggregator type offers to the evaluator, over aggregator states
`σ` and scalars `ρ`. `Update` and `Reset` return the mutated object. -/
structure Aggregator (σ ρ : Type) where
  Update : σ → ρ → ρ → ρ → σ
  GetResult : σ → List ρ
  Reset : σ → σ
  GetValueNames : σ → List String

/-- The data members of `Evaluator`: `_dataset`, `_evaluatorParameters`, `_aggregatorTuple`,
`_evaluateCounter` and the history `_values` (one row of result groups per round). -/
structure Evaluator (δ ρ σ : Type) where
  _dataset : List (Example δ ρ)
  _evaluatorParameters : EvaluatorParameters
  _aggregatorTuple : List σ
  _evaluateCounter : Nat
  _values : List (List (List ρ))

/-! ## Function objects made by `std::bind` -/

/-- The call wrapper returned by `std::bind(std::mem_fn(&T::f), object, args...)`. `std::bind`
stores a decayed copy of every argument that is not wrapped in `std::ref`, so the wrapper owns
its own copy `boundObject` of the aggregator; `memFn` is the member function with the scalar
arguments already bound. -/
structure BoundCall (σ : Type) where
  memFn : σ → σ
  boundObject : σ

/-- The expression `std::bind(std::mem_fn(&T::f), object, args...)`: `object` is copied into
the wrapper. -/
def std_bind {σ : Type} (memFn : σ → σ) (object : σ) : BoundCall σ :=
  { memFn := memFn, boundObject := object }

/-- Invoking the wrapper: the member function runs on the stored copy. -/
def BoundCall.invoke {σ : Type} (b : BoundCall σ) : BoundCall σ :=
  { b with boundObject := b.memFn b.boundObject }

/-- Modelled from the spec: `utilities::InOrderFunctionEvaluator` of `FunctionUtils.h`, which
is not among the sources; it calls each function object once, in argument order. The result is
the list of function objects after their calls. -/
def InOrderFunctionEvaluator {σ : Type} (functions : List (BoundCall σ)) : List (BoundCall σ) :=
  functions.map BoundCall.invoke

/-! ## The evaluator's member functions -/

variable {δ ρ σ : Type}

/-- The member `Evaluator::DispatchUpdate`. One wrapper is bound per aggregator of `_aggregatorTuple`
and the wrappers are called in order. Each wrapper holds a copy of its aggregator, so the
calls to `Update` change the temporaries (second component, destroyed at the end of the
statement) and the evaluator (first component) keeps its members as they were. -/
def Evaluator.DispatchUpdate (A : Aggregator σ ρ) (e : Evaluator δ ρ σ)
    (prediction label weight : ρ) : Evaluator δ ρ σ × List (BoundCall σ) :=
  (e, InOrderFunctionEvaluator
        (e._aggregatorTuple.map (fun X => std_bind (fun a => A.Update a prediction label weight) X)))

/-- The member `Evaluator::Aggregate`. The row of `GetResult()` values of the members of
`_aggregatorTuple`, in order, is pushed onto `_values`; afterwards `Reset` is bound to a copy
of each aggregator and the wrappers are called in order (second component). -/
def Evaluator.Aggregate (A : Aggregator σ ρ) (e : Evaluator δ ρ σ) :
    Evaluator δ ρ σ × List (BoundCall σ) :=
  let e1 := { e with _values := e._values ++ [e._aggregatorTuple.map A.GetResult] }
  (e1, InOrderFunctionEvaluator (e1._aggregatorTuple.map (fun X => std_bind A.Reset X)))

/-- The `while (iterator.IsValid())` loop of `Evaluate`, over the examples still to visit. The
state is the evaluator together with the function objects called so far. -/
def Evaluator.EvaluateLoop (A : Aggregator σ ρ) (predictor : δ → ρ) :
    List (Example δ ρ) → Evaluator δ ρ σ × List (BoundCall σ) →
      Evaluator δ ρ σ × List (BoundCall σ)
  | [], s => s
  | ex :: rest, s =>
      let r := s.1.DispatchUpdate A (predictor ex.dataVector) ex.label ex.weight
      Evaluator.EvaluateLoop A predictor rest (r.1, s.2 ++ r.2)

/-- The member `Evaluator::Evaluate`; a predictor is its `Predict` function. The result is the evaluator
after the call together with the function objects that were called during it, in order. -/
def Evaluator.Evaluate (A : Aggregator σ ρ) (e : Evaluator δ ρ σ) (predictor : δ → ρ) :
    Evaluator δ ρ σ × List (BoundCall σ) :=
  let e1 := { e with _evaluateCounter := e._evaluateCounter + 1 }
  if e1._evaluateCounter % e1._evaluatorParameters.evaluationFrequency != 0 then
    (e1, [])
  else
    let pass := Evaluator.EvaluateLoop A predictor e1._dataset (e1, [])
    let harvest := pass.1.Aggregate A
    (harvest.1, pass.2 ++ harvest.2)

/-- The `while (iterator.IsValid())` loop of `EvaluateZero`. -/
def Evaluator.EvaluateZeroLoop [Zero ρ] (A : Aggregator σ ρ) :
    List (Example δ ρ) → Evaluator δ ρ σ × List (BoundCall σ) →
      Evaluator δ ρ σ × List (BoundCall σ)
  | [], s => s
  | ex :: rest, s =>
      let r := s.1.DispatchUpdate A 0 ex.label ex.weight
      Evaluator.EvaluateZeroLoop A rest (r.1, s.2 ++ r.2)

/-- The member `Evaluator::EvaluateZero`, with the function objects called during it. -/
def Evaluator.EvaluateZero [Zero ρ] (A : Aggregator σ ρ) (e : Evaluator δ ρ σ) :
    Evaluator δ ρ σ × List (BoundCall σ) :=
  let pass := Evaluator.EvaluateZeroLoop A e._dataset (e, [])
  let harvest := pass.1.Aggregate A
  (harvest.1, pass.2 ++ harvest.2)

/-- The constructor `Evaluator::Evaluator`. The `static_assert` makes the aggregator pack
non-empty, so the pack is given as its first aggregator and the rest. -/
def Evaluator.construct [Zero ρ] (A : Aggregator σ ρ) (anyDataset : List (Example δ ρ))
    (evaluatorParameters : EvaluatorParameters) (aggregator : σ) (aggregators : List σ) :
    Evaluator δ ρ σ :=
  let e : Evaluator δ ρ σ :=
    { _dataset := anyDataset
      _evaluatorParameters := evaluatorParameters
      _aggregatorTuple := aggregator :: aggregators
      _evaluateCounter := 0
      _values := [] }
  if e._evaluatorParameters.addZeroEvaluation then (e.EvaluateZero A).1 else e

/-- Successive calls of `Evaluate`, one per predictor of the list. -/
def Evaluator.EvaluateAll (A : Aggregator σ ρ) (e : Evaluator δ ρ σ) (predictors : List (δ → ρ)) :
    Evaluator δ ρ σ :=
  predictors.foldl (fun evaluator predictor => (evaluator.Evaluate A predictor).1) e

/-- A run of a program: construction of an evaluator followed by one call of `Evaluate` per
predictor of the list. -/
def Evaluator.run [Zero ρ] (A : Aggregator σ ρ) (anyDataset : List (Example δ ρ))
    (evaluatorParameters : EvaluatorParameters) (aggregator : σ) (aggregators : List σ)
    (predictors : List (δ → ρ)) : Evaluator δ ρ σ :=
  (Evaluator.construct A anyDataset evaluatorParameters aggregator aggregators).EvaluateAll A
    predictors

/-- The `const` member `Evaluator::GetGoodness`: the evaluator is returned as it was, next to
the value. `none` stands for an access outside the bounds of a vector in
`_values.back()[0][0]`, where the C++ behaviour is undefined. -/
def Evaluator.GetGoodness [Zero ρ] (e : Evaluator δ ρ σ) : Evaluator δ ρ σ × Option ρ :=
  if e._values.length = 0 then
    (e, some 0)
  else
    (e, e._values.getLast?.bind (fun back => back[0]?.bind (fun group => group[0]?)))

/-- The member `Evaluator::DispatchGetValueNames`: the `GetValueNames()` of every aggregator, in order. -/
def Evaluator.DispatchGetValueNames (A : Aggregator σ ρ) (e : Evaluator δ ρ σ) :
    List (List String) :=
  e._aggregatorTuple.map A.GetValueNames

/-- The member `Evaluator::GetValueNames`. -/
def Evaluator.GetValueNames (A : Aggregator σ ρ) (e : Evaluator δ ρ σ) : List (List String) :=
  e.DispatchGetValueNames A

/-! ## Output streams -/

/-- The flags of `std::ios_base::fmtflags`; a value of that bitmask type is a set of them. -/
inductive FmtFlag where
  | boolalpha | dec | fixed | hex | internal | left | oct | right
  | scientific | showbase | showpoint | showpos | skipws | unitbuf | uppercase
deriving DecidableEq, Repr

/-- What one insertion `os << x` adds to a stream: a string, a `double` together with the
formatting state in force when it is written, a single character, or `std::endl`. -/
inductive Inserted (ρ : Type) where
  | text (s : String)
  | number (value : ρ) (flags : Finset FmtFlag) (precision : Nat)
  | char (c : Char)
  | endl

/-- The part of a `std::ostream` that `Print` touches: what has been written so far, the
format flags and the precision. -/
structure OStream (ρ : Type) where
  written : List (Inserted ρ)
  fmtfl : Finset FmtFlag
  prec : Nat

/-- The call `os.precision(n)`: sets the precision and returns the previous one. -/
def OStream.precision (os : OStream ρ) (n : Nat) : Nat × OStream ρ :=
  (os.prec, { os with prec := n })

/-- The call `os.setf(flags)` with one argument: the given flags are set in addition to those
already set (`fl = fl | flags`) and the previous flags are returned. -/
def OStream.setf (os : OStream ρ) (flags : Finset FmtFlag) : Finset FmtFlag × OStream ρ :=
  (os.fmtfl, { os with fmtfl := os.fmtfl ∪ flags })

/-- The insertion `os << s` of a string. -/
def OStream.insertString (os : OStream ρ) (s : String) : OStream ρ :=
  { os with written := os.written ++ [Inserted.text s] }

/-- The insertion `os << x` of a `double`, rendered under the current flags and precision. -/
def OStream.insertDouble (os : OStream ρ) (x : ρ) : OStream ρ :=
  { os with written := os.written ++ [Inserted.number x os.fmtfl os.prec] }

/-- The insertion `os << c` of a character. -/
def OStream.insertChar (os : OStream ρ) (c : Char) : OStream ρ :=
  { os with written := os.written ++ [Inserted.char c] }

/-- The insertion `os << std::endl`. -/
def OStream.insertEndl (os : OStream ρ) : OStream ρ :=
  { os with written := os.written ++ [Inserted.endl] }

/-- The loop `for (size_t j = 1; j < v.size(); ++j) os << '\t' << v[j];` of `PrintVector`,
over the elements from index `j` on. -/
def PrintVector.loop {T : Type} (insert : OStream ρ → T → OStream ρ) :
    OStream ρ → List T → OStream ρ
  | os, [] => os
  | os, x :: rest => PrintVector.loop insert (insert (os.insertChar '\t') x) rest

/-- The function `PrintVector`, for an element type whose `operator<<` is `insert`. -/
def PrintVector {T : Type} (insert : OStream ρ → T → OStream ρ) (os : OStream ρ) (v : List T) :
    OStream ρ :=
  match v with
  | [] => os
  | x :: rest => PrintVector.loop insert (insert os x) rest

/-- The loop `while (iter != end)` of `FlattenJaggedVector`: the vectors still to visit and
`concat` so far. -/
def FlattenJaggedVector.loop {T : Type} : List (List T) → List T → List T
  | [], concat => concat
  | inner :: rest, concat => FlattenJaggedVector.loop rest (concat ++ inner)

/-- The function `FlattenJaggedVector`. -/
def FlattenJaggedVector {T : Type} (v : List (List T)) : List T :=
  FlattenJaggedVector.loop v []

/-- The loop `for (const auto& values : _values)` of `Print`. -/
def Evaluator.PrintLoop : List (List (List ρ)) → OStream ρ → OStream ρ
  | [], os => os
  | values :: rest, os =>
      Evaluator.PrintLoop rest
        (PrintVector OStream.insertDouble os.insertEndl (FlattenJaggedVector values))

/-- The `const` member `Evaluator::Print`: the evaluator is returned as it was, next to the
stream after the call. -/
def Evaluator.Print (A : Aggregator σ ρ) (e : Evaluator δ ρ σ) (os : OStream ρ) :
    Evaluator δ ρ σ × OStream ρ :=
  let (originalPrecision, os1) := os.precision 6
  let (originalFlags, os2) := os1.setf {FmtFlag.fixed}
  let os3 := PrintVector OStream.insertString os2 (FlattenJaggedVector (e.GetValueNames A))
  let os4 := Evaluator.PrintLoop e._values os3
  let os5 := (os4.setf originalFlags).2
  let os6 := (os5.precision originalPrecision).2
  (e, os6)

/-! ## Reading the written output -/

/-- Whether an insertion is the tab character. -/
def Inserted.isTab : Inserted ρ → Bool
  | Inserted.char c => c == '\t'
  | _ => false

/-- The characters that one insertion puts into the written text: a string goes in as it is, a
character as itself, `std::endl` as the line break, and a number as `render` writes it under
the flags and the precision in force; `render` stands for the number formatting of the
standard library. -/
def Inserted.characters (render : Finset FmtFlag → Nat → ρ → String) : Inserted ρ → List Char
  | Inserted.text s => s.toList
  | Inserted.number value flags precision => (render flags precision value).toList
  | Inserted.char c => [c]
  | Inserted.endl => ['\n']

/-- The text of a sequence of insertions. -/
def writtenText (render : Finset FmtFlag → Nat → ρ → String) (written : List (Inserted ρ)) :
    List Char :=
  written.flatMap (Inserted.characters render)

/-- The lines of a text: the pieces between consecutive line breaks. -/
def textLines (text : List Char) : List (List Char) :=
  text.splitOn '\n'

/-- The number of tab-separated tokens of a line of text: none on the empty line, otherwise the
number of pieces between consecutive tabs. -/
def tokenCount (line : List Char) : Nat :=
  if line.isEmpty then 0 else (line.splitOn '\t').length

/-- The tab-separated line of a vector of strings. -/
def tabJoinedNames (names : List String) : List (Inserted ρ) :=
  (names.map Inserted.text).intersperse (Inserted.char '\t')

/-- The tab-separated line of a vector of numbers written under the given formatting state. -/
def tabJoinedValues (flags : Finset FmtFlag) (precision : Nat) (values : List ρ) :
    List (Inserted ρ) :=
  (values.map (fun x => Inserted.number x flags precision)).intersperse (Inserted.char '\t')

/-! ## Reachable states -/

/-- The evaluator states a program can be in: those obtained from the constructor by calls of
`Evaluate`. -/
inductive Evaluator.Reachable [Zero ρ] (A : Aggregator σ ρ) : Evaluator δ ρ σ → Prop where
  | construct (anyDataset : List (Example δ ρ)) (evaluatorParameters : EvaluatorParameters)
      (aggregator : σ) (aggregators : List σ) :
      Evaluator.Reachable A
        (Evaluator.construct A anyDataset evaluatorParameters aggregator aggregators)
  | Evaluate (e : Evaluator δ ρ σ) (predictor : δ → ρ) :
      Evaluator.Reachable A e → Evaluator.Reachable A (e.Evaluate A predictor).1

/-! ## Concrete aggregators, for evaluating the definitions -/

/-- An aggregator over integers whose state is the total weight of the examples on which
prediction and label agree in sign (both positive, or neither). -/
def signAgreement : Aggregator Int Int where
  Update := fun s prediction label weight =>
    if decide (0 < prediction) = decide (0 < label) then s + weight else s
  GetResult := fun s => [s]
  Reset := fun _ => 0
  GetValueNames := fun _ => ["Agreement"]

/-- An aggregator over integers that reports two values: the number of updates received and
the sum of the predictions. -/
def countAndSum : Aggregator (Int × Int) Int where
  Update := fun s prediction _ _ => (s.1 + 1, s.2 + prediction)
  GetResult := fun s => [s.1, s.2]
  Reset := fun _ => (0, 0)
  GetValueNames := fun _ => ["Count", "Sum"]

/-- An aggregator over integers with one result, the total weight received, whose value name
is the given string. -/
def namedAggregator (name : String) : Aggregator Int Int where
  Update := fun s _ _ weight => s + weight
  GetResult := fun s => [s]
  Reset := fun _ => 0
  GetValueNames := fun _ => [name]

/-- The fixed-point text of an integer value: sign, decimal digits and, for a positive
precision, the point followed by that many zeros. The flags are taken to hold `fixed`. -/
def fixedPointText (_flags : Finset FmtFlag) (precision : Nat) (value : Int) : String :=
  (if value < 0 then "-" else "") ++ Nat.repr value.natAbs ++
    (if precision = 0 then "" else "." ++ String.mk (List.replicate precision '0'))

/-- An aggregator over integers whose state and only result is the label of the example it
was updated with last; `Reset` puts it back to 0. -/
def lastLabel : Aggregator Int Int where
  Update := fun _ _ label _ => label
  GetResult := fun s => [s]
  Reset := fun _ => 0
  GetValueNames := fun _ => ["LastLabel"]

/-! ## Exchanging two positions -/

/-- The list `l` with the elements at positions `i` and `j` exchanged; `l` itself when one of
the positions is not a position of `l`. -/
def exchange {α : Type} (i j : Nat) (l : List α) : List α :=
  match l[i]?, l[j]? with
  | some x, some y => (l.set i y).set j x
  | _, _ => l

/-! ## Basic facts about the member functions -/

theorem Evaluator.EvaluateLoop_eq (A : Aggregator σ ρ) (predictor : δ → ρ)
    (examples : List (Example δ ρ)) (s : Evaluator δ ρ σ × List (BoundCall σ)) :
    (Evaluator.EvaluateLoop A predictor examples s).1 = s.1 := by
  induction examples generalizing s with
  | nil => rfl
  | cons ex rest ih =>
    simp only [Evaluator.EvaluateLoop, Evaluator.DispatchUpdate]
    exact ih _

theorem Evaluator.EvaluateZeroLoop_eq [Zero ρ] (A : Aggregator σ ρ)
    (examples : List (Example δ ρ)) (s : Evaluator δ ρ σ × List (BoundCall σ)) :
    (Evaluator.EvaluateZeroLoop A examples s).1 = s.1 := by
  induction examples generalizing s with
  | nil => rfl
  | cons ex rest ih =>
    simp only [Evaluator.EvaluateZeroLoop, Evaluator.DispatchUpdate]
    exact ih _

theorem Evaluator.Evaluate_of_skip (A : Aggregator σ ρ) (e : Evaluator δ ρ σ) (predictor : δ → ρ)
    (h : (e._evaluateCounter + 1) % e._evaluatorParameters.evaluationFrequency ≠ 0) :
    e.Evaluate A predictor = ({ e with _evaluateCounter := e._evaluateCounter + 1 }, []) := by
  simp [Evaluator.Evaluate, h]

theorem Evaluator.Evaluate_of_round (A : Aggregator σ ρ) (e : Evaluator δ ρ σ)
    (predictor : δ → ρ)
    (h : (e._evaluateCounter + 1) % e._evaluatorParameters.evaluationFrequency = 0) :
    (e.Evaluate A predictor).1 =
      { e with _evaluateCounter := e._evaluateCounter + 1
               _values := e._values ++ [e._aggregatorTuple.map A.GetResult] } := by
  simp [Evaluator.Evaluate, h, Evaluator.EvaluateLoop_eq, Evaluator.Aggregate]

theorem Evaluator.EvaluateZero_eq [Zero ρ] (A : Aggregator σ ρ) (e : Evaluator δ ρ σ) :
    (e.EvaluateZero A).1 = { e with _values := e._values ++ [e._aggregatorTuple.map A.GetResult] } := by
  simp [Evaluator.EvaluateZero, Evaluator.EvaluateZeroLoop_eq, Evaluator.Aggregate]

theorem Evaluator.Evaluate_parameters (A : Aggregator σ ρ) (e : Evaluator δ ρ σ)
    (predictor : δ → ρ) :
    (e.Evaluate A predictor).1._evaluatorParameters = e._evaluatorParameters := by
  by_cases h : (e._evaluateCounter + 1) % e._evaluatorParameters.evaluationFrequency = 0
  · rw [Evaluator.Evaluate_of_round A e predictor h]
  · rw [Evaluator.Evaluate_of_skip A e predictor h]

theorem Evaluator.Evaluate_counter (A : Aggregator σ ρ) (e : Evaluator δ ρ σ)
    (predictor : δ → ρ) :
    (e.Evaluate A predictor).1._evaluateCounter = e._evaluateCounter + 1 := by
  by_cases h : (e._evaluateCounter + 1) % e._evaluatorParameters.evaluationFrequency = 0
  · rw [Evaluator.Evaluate_of_round A e predictor h]
  · rw [Evaluator.Evaluate_of_skip A e predictor h]

theorem Evaluator.Evaluate_aggregatorTuple (A : Aggregator σ ρ) (e : Evaluator δ ρ σ)
    (predictor : δ → ρ) :
    (e.Evaluate A predictor).1._aggregatorTuple = e._aggregatorTuple := by
  by_cases h : (e._evaluateCounter + 1) % e._evaluatorParameters.evaluationFrequency = 0
  · rw [Evaluator.Evaluate_of_round A e predictor h]
  · rw [Evaluator.Evaluate_of_skip A e predictor h]

theorem Evaluator.Evaluate_values_length (A : Aggregator σ ρ) (e : Evaluator δ ρ σ)
    (predictor : δ → ρ) :
    (e.Evaluate A predictor).1._values.length =
      e._values.length +
        (if e._evaluatorParameters.evaluationFrequency ∣ e._evaluateCounter + 1 then 1 else 0) := by
  by_cases h : (e._evaluateCounter + 1) % e._evaluatorParameters.evaluationFrequency = 0
  · rw [Evaluator.Evaluate_of_round A e predictor h, if_pos (Nat.dvd_of_mod_eq_zero h)]
    simp
  · rw [Evaluator.Evaluate_of_skip A e predictor h, if_neg (fun hd => h (Nat.mod_eq_zero_of_dvd hd))]
    simp

theorem Evaluator.construct_values [Zero ρ] (A : Aggregator σ ρ) (anyDataset : List (Example δ ρ))
    (evaluatorParameters : EvaluatorParameters) (aggregator : σ) (aggregators : List σ) :
    (Evaluator.construct A anyDataset evaluatorParameters aggregator aggregators)._values =
      if evaluatorParameters.addZeroEvaluation then
        [(aggregator :: aggregators).map A.GetResult]
      else [] := by
  cases hz : evaluatorParameters.addZeroEvaluation <;>
    simp [Evaluator.construct, hz, Evaluator.EvaluateZero_eq]

theorem Evaluator.construct_counter [Zero ρ] (A : Aggregator σ ρ)
    (anyDataset : List (Example δ ρ)) (evaluatorParameters : EvaluatorParameters)
    (aggregator : σ) (aggregators : List σ) :
    (Evaluator.construct A anyDataset evaluatorParameters aggregator aggregators)._evaluateCounter
      = 0 := by
  cases hz : evaluatorParameters.addZeroEvaluation <;>
    simp [Evaluator.construct, hz, Evaluator.EvaluateZero_eq]

theorem Evaluator.construct_parameters [Zero ρ] (A : Aggregator σ ρ)
    (anyDataset : List (Example δ ρ)) (evaluatorParameters : EvaluatorParameters)
    (aggregator : σ) (aggregators : List σ) :
    (Evaluator.construct A anyDataset evaluatorParameters aggregator aggregators)._evaluatorParameters
      = evaluatorParameters := by
  cases hz : evaluatorParameters.addZeroEvaluation <;>
    simp [Evaluator.construct, hz, Evaluator.EvaluateZero_eq]

theorem Evaluator.EvaluateAll_parameters (A : Aggregator σ ρ) (predictors : List (δ → ρ))
    (e : Evaluator δ ρ σ) :
    (e.EvaluateAll A predictors)._evaluatorParameters = e._evaluatorParameters := by
  induction predictors generalizing e with
  | nil => rfl
  | cons p ps ih =>
    simp only [Evaluator.EvaluateAll, List.foldl_cons]
    exact (ih (e.Evaluate A p).1).trans (Evaluator.Evaluate_parameters A e p)

theorem Evaluator.EvaluateAll_counter (A : Aggregator σ ρ) (predictors : List (δ → ρ))
    (e : Evaluator δ ρ σ) :
    (e.EvaluateAll A predictors)._evaluateCounter = e._evaluateCounter + predictors.length := by
  induction predictors generalizing e with
  | nil => rfl
  | cons p ps ih =>
    simp only [Evaluator.EvaluateAll, List.foldl_cons, List.length_cons]
    have h := ih (e.Evaluate A p).1
    simp only [Evaluator.EvaluateAll] at h
    rw [h, Evaluator.Evaluate_counter]
    omega

/-- The length of the history after a run of `Evaluate` calls, from any state. -/
theorem Evaluator.EvaluateAll_values_length (A : Aggregator σ ρ) (predictors : List (δ → ρ))
    (e : Evaluator δ ρ σ) :
    (e.EvaluateAll A predictors)._values.length + e._evaluateCounter
        / e._evaluatorParameters.evaluationFrequency =
      e._values.length + (e._evaluateCounter + predictors.length)
        / e._evaluatorParameters.evaluationFrequency := by
  induction predictors generalizing e with
  | nil => rfl
  | cons p ps ih =>
    simp only [Evaluator.EvaluateAll, List.foldl_cons, List.length_cons]
    have h := ih (e.Evaluate A p).1
    simp only [Evaluator.EvaluateAll, Evaluator.Evaluate_parameters, Evaluator.Evaluate_counter,
      Evaluator.Evaluate_values_length] at h
    have hs := Nat.succ_div e._evaluateCounter e._evaluatorParameters.evaluationFrequency
    have hr : e._evaluateCounter + (ps.length + 1) = e._evaluateCounter + 1 + ps.length := by omega
    rw [hr]
    omega

/-! ## The schedule -/

/-- C1: for every frequency `F ≥ 1`, dataset, aggregator pack and list of predictors, the
history of a freshly constructed evaluator after one `Evaluate` call per predictor has length
`z + n / F`, with `n` the number of calls and `z` one when `addZeroEvaluation` is set and zero
otherwise; so `F` calls give `z + 1`, `F - 1` calls give `z`, and with `F = 3` the first two calls
leave the length at `z` while the third, fourth and fifth leave it at `z + 1`. -/
theorem Evaluator.history_length_after_calls [Zero ρ] (A : Aggregator σ ρ)
    (anyDataset : List (Example δ ρ)) (F : Nat) (addZeroEvaluation : Bool)
    (aggregator : σ) (aggregators : List σ) (hF : 1 ≤ F) :
    (∀ predictors : List (δ → ρ),
      ((Evaluator.construct A anyDataset ⟨F, addZeroEvaluation⟩ aggregator aggregators).EvaluateAll
          A predictors)._values.length
        = (if addZeroEvaluation then 1 else 0) + predictors.length / F) ∧
    (∀ predictors : List (δ → ρ), predictors.length = F →
      ((Evaluator.construct A anyDataset ⟨F, addZeroEvaluation⟩ aggregator aggregators).EvaluateAll
          A predictors)._values.length
        = (if addZeroEvaluation then 1 else 0) + 1) ∧
    (∀ predictors : List (δ → ρ), predictors.length = F - 1 →
      ((Evaluator.construct A anyDataset ⟨F, addZeroEvaluation⟩ aggregator aggregators).EvaluateAll
          A predictors)._values.length
        = (if addZeroEvaluation then 1 else 0)) ∧
    (F = 3 → ∀ p1 p2 p3 p4 p5 : δ → ρ, ∀ k : Nat,
      ((Evaluator.construct A anyDataset ⟨F, addZeroEvaluation⟩ aggregator aggregators).EvaluateAll
          A ([p1, p2, p3, p4, p5].take k))._values.length
        = (if addZeroEvaluation then 1 else 0) + (if 3 ≤ k then 1 else 0)) := by
  have main : ∀ predictors : List (δ → ρ),
      ((Evaluator.construct A anyDataset ⟨F, addZeroEvaluation⟩ aggregator aggregators).EvaluateAll
          A predictors)._values.length
        = (if addZeroEvaluation then 1 else 0) + predictors.length / F := by
    intro predictors
    have h := Evaluator.EvaluateAll_values_length A predictors
      (Evaluator.construct A anyDataset ⟨F, addZeroEvaluation⟩ aggregator aggregators)
    simp only [Evaluator.construct_counter, Evaluator.construct_parameters,
      Evaluator.construct_values, Nat.zero_div, Nat.zero_add, Nat.add_zero] at h
    rw [h]
    cases addZeroEvaluation <;> simp
  refine ⟨main, ?_, ?_, ?_⟩
  · intro predictors hlen
    rw [main, hlen, Nat.div_self (by omega)]
  · intro predictors hlen
    rw [main, hlen, Nat.div_eq_of_lt (by omega), Nat.add_zero]
  · intro h3 p1 p2 p3 p4 p5 k
    subst h3
    rw [main]
    have hk : ([p1, p2, p3, p4, p5].take k).length = min k 5 := by simp
    rw [hk]
    by_cases h : 3 ≤ k
    · rw [if_pos h]
      have : min k 5 / 3 = 1 := by
        have h1 : 3 ≤ min k 5 := by omega
        have h2 : min k 5 ≤ 5 := by omega
        omega
      rw [this]
    · rw [if_neg h]
      have : min k 5 / 3 = 0 := by
        have h2 : min k 5 < 3 := by omega
        omega
      rw [this]

/-- Witness of C1: frequency 3, a zero evaluation, the sign-agreement aggregator and five
predictors. -/
theorem Evaluator.history_length_after_calls_witness :
    (1 ≤ 3) ∧
    ((Evaluator.construct signAgreement [⟨(), 1, 1⟩, ⟨(), 0, 1⟩] ⟨3, true⟩ 0 []).EvaluateAll
        signAgreement [fun _ => 1, fun _ => 0, fun _ => 1, fun _ => 0, fun _ => 1])._values.length
      = (if true then 1 else 0) + 5 / 3 :=
  ⟨by decide,
   (Evaluator.history_length_after_calls signAgreement [⟨(), 1, 1⟩, ⟨(), 0, 1⟩] 3 true 0 []
      (by decide)).1 [fun _ => 1, fun _ => 0, fun _ => 1, fun _ => 0, fun _ => 1]⟩

/-- C2: when the incremented counter is not a multiple of `evaluationFrequency` (taken `≥ 1`),
`Evaluate` only increments the counter: no function object is bound or called, the history and
every aggregator of `_aggregatorTuple` are what they were before the call. -/
theorem Evaluator.Evaluate_skipped_noop (A : Aggregator σ ρ) (e : Evaluator δ ρ σ)
    (predictor : δ → ρ) (_hF : 1 ≤ e._evaluatorParameters.evaluationFrequency)
    (h : (e._evaluateCounter + 1) % e._evaluatorParameters.evaluationFrequency ≠ 0) :
    e.Evaluate A predictor = ({ e with _evaluateCounter := e._evaluateCounter + 1 }, []) ∧
    (e.Evaluate A predictor).1._values = e._values ∧
    (e.Evaluate A predictor).1._aggregatorTuple = e._aggregatorTuple := by
  rw [Evaluator.Evaluate_of_skip A e predictor h]
  exact ⟨rfl, rfl, rfl⟩

/-- Witness of C2: frequency 3, counter 0, one earlier snapshot. -/
theorem Evaluator.Evaluate_skipped_noop_witness :
    (1 ≤ 3 ∧ (0 + 1) % 3 ≠ 0) ∧
    (Evaluator.Evaluate signAgreement
        (⟨[⟨(), 1, 1⟩], ⟨3, false⟩, [7], 0, [[[4]]]⟩ : Evaluator Unit Int Int) (fun _ => 1)).1._values
      = [[[4]]] ∧
    (Evaluator.Evaluate signAgreement
        (⟨[⟨(), 1, 1⟩], ⟨3, false⟩, [7], 0, [[[4]]]⟩ : Evaluator Unit Int Int)
        (fun _ => 1)).1._aggregatorTuple = [7] :=
  ⟨by decide,
   (Evaluator.Evaluate_skipped_noop signAgreement
      (⟨[⟨(), 1, 1⟩], ⟨3, false⟩, [7], 0, [[[4]]]⟩ : Evaluator Unit Int Int) (fun _ => 1)
      (by decide) (by decide)).2⟩

/-- C3, the code at a failing input: frequency 1, one example with label 1 and weight 1, the
sign-agreement aggregator in state 0 and a predictor that always answers 1. The update of the
pass reaches only the temporary copy (which ends in state 1); the evaluator's aggregator stays
in state 0 and the appended snapshot is `[[0]]`, while `GetResult` after the update is `[1]`. -/
theorem Evaluator.Evaluate_update_lost :
    (Evaluator.Evaluate signAgreement
        (⟨[⟨(), 1, 1⟩], ⟨1, false⟩, [0], 0, []⟩ : Evaluator Unit Int Int) (fun _ => 1)).1._values
      = [[[0]]] ∧
    (Evaluator.Evaluate signAgreement
        (⟨[⟨(), 1, 1⟩], ⟨1, false⟩, [0], 0, []⟩ : Evaluator Unit Int Int)
        (fun _ => 1)).1._aggregatorTuple = [0] ∧
    ((Evaluator.Evaluate signAgreement
        (⟨[⟨(), 1, 1⟩], ⟨1, false⟩, [0], 0, []⟩ : Evaluator Unit Int Int)
        (fun _ => 1)).2.map BoundCall.boundObject) = [1, 0] ∧
    signAgreement.GetResult (signAgreement.Update 0 1 1 1) = [1] := by
  refine ⟨?_, ?_, ?_, ?_⟩ <;> decide

/-- C4, the code at a failing input: the dataset `[(label 1, weight 1), (label 0, weight 1)]`,
the sign-agreement aggregator in state 0 and `addZeroEvaluation` set. The history after
construction is the single snapshot `[[0]]`, while `GetResult` after the two updates with
prediction 0 is `[1]` (the second example agrees in sign). -/
theorem Evaluator.construct_zero_round_update_lost :
    (Evaluator.construct signAgreement ([⟨(), 1, 1⟩, ⟨(), 0, 1⟩] : List (Example Unit Int))
        ⟨1, true⟩ 0 [])._values = [[[0]]] ∧
    signAgreement.GetResult
        (signAgreement.Update (signAgreement.Update 0 0 1 1) 0 0 1) = [1] := by
  refine ⟨?_, ?_⟩ <;> decide

/-- One `Evaluate` call extends the history by at most one snapshot at its end. -/
theorem Evaluator.Evaluate_values_append (A : Aggregator σ ρ) (e : Evaluator δ ρ σ)
    (predictor : δ → ρ) :
    ∃ added : List (List (List ρ)),
      (e.Evaluate A predictor).1._values = e._values ++ added ∧ added.length ≤ 1 := by
  by_cases h : (e._evaluateCounter + 1) % e._evaluatorParameters.evaluationFrequency = 0
  · exact ⟨[e._aggregatorTuple.map A.GetResult],
      by rw [Evaluator.Evaluate_of_round A e predictor h], by simp⟩
  · exact ⟨[], by rw [Evaluator.Evaluate_of_skip A e predictor h]; simp, by simp⟩

/-- A run of `Evaluate` calls extends the history at its end. -/
theorem Evaluator.EvaluateAll_values_append (A : Aggregator σ ρ) (predictors : List (δ → ρ))
    (e : Evaluator δ ρ σ) :
    ∃ added : List (List (List ρ)), (e.EvaluateAll A predictors)._values = e._values ++ added := by
  induction predictors generalizing e with
  | nil => exact ⟨[], by simp [Evaluator.EvaluateAll]⟩
  | cons p ps ih =>
    obtain ⟨t1, h1, _⟩ := Evaluator.Evaluate_values_append A e p
    obtain ⟨t2, h2⟩ := ih (e.Evaluate A p).1
    refine ⟨t1 ++ t2, ?_⟩
    simp only [Evaluator.EvaluateAll, List.foldl_cons] at h2 ⊢
    rw [h2, h1, List.append_assoc]

/-- C5: for every frequency `F ≥ 1`, construction with `addZeroEvaluation` set leaves exactly
the zero-round snapshot in the history and the counter at 0; and, whether or not the flag is
set, fewer than `F` calls of `Evaluate` leave the history as the constructor left it while the
`F`-th call adds one snapshot to it. -/
theorem Evaluator.zero_round_independent_of_schedule [Zero ρ] (A : Aggregator σ ρ)
    (anyDataset : List (Example δ ρ)) (F : Nat) (aggregator : σ) (aggregators : List σ)
    (hF : 1 ≤ F) :
    (Evaluator.construct A anyDataset ⟨F, true⟩ aggregator aggregators)._values.length = 1 ∧
    (Evaluator.construct A anyDataset ⟨F, true⟩ aggregator aggregators)._evaluateCounter = 0 ∧
    (Evaluator.construct A anyDataset ⟨F, false⟩ aggregator aggregators)._evaluateCounter = 0 ∧
    ∀ addZeroEvaluation : Bool, ∀ predictors : List (δ → ρ),
      (predictors.length < F →
        ((Evaluator.construct A anyDataset ⟨F, addZeroEvaluation⟩ aggregator
            aggregators).EvaluateAll A predictors)._values
          = (Evaluator.construct A anyDataset ⟨F, addZeroEvaluation⟩ aggregator
              aggregators)._values) ∧
      (predictors.length = F →
        ((Evaluator.construct A anyDataset ⟨F, addZeroEvaluation⟩ aggregator
            aggregators).EvaluateAll A predictors)._values.length
          = (Evaluator.construct A anyDataset ⟨F, addZeroEvaluation⟩ aggregator
              aggregators)._values.length + 1) := by
  refine ⟨by simp [Evaluator.construct_values], Evaluator.construct_counter A _ _ _ _,
    Evaluator.construct_counter A _ _ _ _, ?_⟩
  intro z predictors
  have hlen := Evaluator.EvaluateAll_values_length A predictors
    (Evaluator.construct A anyDataset ⟨F, z⟩ aggregator aggregators)
  simp only [Evaluator.construct_counter, Evaluator.construct_parameters, Nat.zero_div,
    Nat.zero_add, Nat.add_zero] at hlen
  constructor
  · intro hlt
    obtain ⟨added, hadd⟩ := Evaluator.EvaluateAll_values_append A predictors
      (Evaluator.construct A anyDataset ⟨F, z⟩ aggregator aggregators)
    rw [Nat.div_eq_of_lt hlt, hadd, List.length_append] at hlen
    have h0 : added = [] := List.length_eq_zero.mp (by omega)
    rw [hadd, h0, List.append_nil]
  · intro heq
    rw [hlen, heq, Nat.div_self (by omega)]

/-- Witness of C5: frequency 2 and two predictors, with the zero evaluation. -/
theorem Evaluator.zero_round_independent_of_schedule_witness :
    (1 ≤ 2) ∧
    ((Evaluator.construct signAgreement ([⟨(), 1, 1⟩] : List (Example Unit Int)) ⟨2, true⟩ 0
        []).EvaluateAll signAgreement [fun _ => 1, fun _ => 1])._values.length
      = (Evaluator.construct signAgreement ([⟨(), 1, 1⟩] : List (Example Unit Int)) ⟨2, true⟩ 0
          [])._values.length + 1 :=
  ⟨by decide,
   ((Evaluator.zero_round_independent_of_schedule signAgreement
      ([⟨(), 1, 1⟩] : List (Example Unit Int)) 2 0 [] (by decide)).2.2.2 true
      [fun _ => 1, fun _ => 1]).2 rfl⟩

/-- C6: `GetGoodness` returns `0.0` when the history is empty; when the last snapshot of the
history starts with a group that starts with the value `v`, it returns `v`; and it leaves the
evaluator as it was. -/
theorem Evaluator.GetGoodness_spec [Zero ρ] (e : Evaluator δ ρ σ) :
    (e._values = [] → e.GetGoodness.2 = some 0) ∧
    (∀ (earlier : List (List (List ρ))) (v : ρ) (group : List ρ) (groups : List (List ρ)),
      e._values = earlier ++ [(v :: group) :: groups] → e.GetGoodness.2 = some v) ∧
    e.GetGoodness.1 = e := by
  refine ⟨?_, ?_, ?_⟩
  · intro h
    simp [Evaluator.GetGoodness, h]
  · intro earlier v group groups h
    simp [Evaluator.GetGoodness, h]
  · unfold Evaluator.GetGoodness
    split <;> rfl

/-- Witness of C6: a history of two snapshots; the goodness is the first value of the last. -/
theorem Evaluator.GetGoodness_spec_witness :
    (Evaluator.GetGoodness
      (⟨[], ⟨1, false⟩, [0], 2, [[[3, 4]], [[5, 6], [7]]]⟩ : Evaluator Unit Int Int)).2 = some 5 :=
  (Evaluator.GetGoodness_spec
    (⟨[], ⟨1, false⟩, [0], 2, [[[3, 4]], [[5, 6], [7]]]⟩ : Evaluator Unit Int Int)).2.1
    [[[3, 4]]] 5 [6] [[7]] rfl

/-! ## Printing -/

theorem FlattenJaggedVector.loop_eq {T : Type} (v : List (List T)) (concat : List T) :
    FlattenJaggedVector.loop v concat = concat ++ v.flatten := by
  induction v generalizing concat with
  | nil => simp [FlattenJaggedVector.loop]
  | cons inner rest ih => simp [FlattenJaggedVector.loop, ih]

theorem FlattenJaggedVector_eq_flatten {T : Type} (v : List (List T)) :
    FlattenJaggedVector v = v.flatten := by
  simp [FlattenJaggedVector, FlattenJaggedVector.loop_eq]

theorem intersperse_cons_eq_flatMap {α : Type} (sep x : α) (xs : List α) :
    (x :: xs).intersperse sep = x :: xs.flatMap (fun y => [sep, y]) := by
  induction xs generalizing x with
  | nil => rfl
  | cons y ys ih => rw [List.intersperse_cons_cons, ih y]; rfl

/-- What `PrintVector` writes when every insertion of an element appends the single item
`item flags precision x`: the items of the vector with a tab between neighbours. The flags and
the precision are not touched. -/
theorem PrintVector_eq {T : Type} (insert : OStream ρ → T → OStream ρ)
    (item : Finset FmtFlag → Nat → T → Inserted ρ)
    (hinsert : ∀ os x, insert os x = { os with written := os.written ++ [item os.fmtfl os.prec x] })
    (os : OStream ρ) (v : List T) :
    PrintVector insert os v =
      { os with written := os.written ++
          (v.map (item os.fmtfl os.prec)).intersperse (Inserted.char '\t') } := by
  have hloop : ∀ (rest : List T) (s : OStream ρ),
      PrintVector.loop insert s rest =
        { s with written := s.written ++
            rest.flatMap (fun y => [Inserted.char '\t', item s.fmtfl s.prec y]) } := by
    intro rest
    induction rest with
    | nil => intro s; simp [PrintVector.loop]
    | cons y ys ih =>
      intro s
      simp [PrintVector.loop, ih, hinsert, OStream.insertChar]
  cases v with
  | nil => simp [PrintVector]
  | cons x xs =>
    simp only [PrintVector, hloop, hinsert, List.map_cons, intersperse_cons_eq_flatMap]
    simp [List.flatMap_map]

theorem PrintVector_insertString (os : OStream ρ) (v : List String) :
    PrintVector OStream.insertString os v =
      { os with written := os.written ++ tabJoinedNames v } :=
  PrintVector_eq OStream.insertString (fun _ _ s => Inserted.text s) (fun _ _ => rfl) os v

theorem PrintVector_insertDouble (os : OStream ρ) (v : List ρ) :
    PrintVector OStream.insertDouble os v =
      { os with written := os.written ++ tabJoinedValues os.fmtfl os.prec v } :=
  PrintVector_eq OStream.insertDouble (fun flags precision x => Inserted.number x flags precision)
    (fun _ _ => rfl) os v

theorem Evaluator.PrintLoop_eq (history : List (List (List ρ))) (os : OStream ρ) :
    Evaluator.PrintLoop history os =
      { os with written := os.written ++
          history.flatMap (fun values =>
            Inserted.endl :: tabJoinedValues os.fmtfl os.prec values.flatten) } := by
  induction history generalizing os with
  | nil => simp [Evaluator.PrintLoop]
  | cons values rest ih =>
    simp [Evaluator.PrintLoop, ih, PrintVector_insertDouble, OStream.insertEndl,
      FlattenJaggedVector_eq_flatten]

/-- The stream after `Print`: the header and one line per snapshot have been appended, the
fixed flag has been added to the flags, the precision is the original one. -/
theorem Evaluator.Print_eq (A : Aggregator σ ρ) (e : Evaluator δ ρ σ) (os : OStream ρ) :
    (e.Print A os).2 =
      { written := os.written ++ (tabJoinedNames (e.GetValueNames A).flatten ++
          e._values.flatMap (fun values =>
            Inserted.endl :: tabJoinedValues (os.fmtfl ∪ {FmtFlag.fixed}) 6 values.flatten))
        fmtfl := os.fmtfl ∪ {FmtFlag.fixed}
        prec := os.prec } := by
  simp [Evaluator.Print, OStream.precision, OStream.setf, Evaluator.PrintLoop_eq,
    PrintVector_insertString, FlattenJaggedVector_eq_flatten]
  rw [Finset.union_comm {FmtFlag.fixed} os.fmtfl, ← Finset.union_assoc, Finset.union_self]

/-- C7, the code at a failing input: a stream with the flags `skipws` and `dec` and precision 6,
and an evaluator with one snapshot. After `Print` the precision is again 6, but the fixed flag,
which was not set before the call, is set: `os.setf(originalFlags)` adds the original flags to
the current ones and clears nothing. -/
theorem Evaluator.Print_leaves_fixed_set :
    FmtFlag.fixed ∉ (⟨[], {FmtFlag.skipws, FmtFlag.dec}, 6⟩ : OStream Int).fmtfl ∧
    FmtFlag.fixed ∈ (Evaluator.Print signAgreement
        (⟨[], ⟨1, false⟩, [0], 1, [[[0]]]⟩ : Evaluator Unit Int Int)
        ⟨[], {FmtFlag.skipws, FmtFlag.dec}, 6⟩).2.fmtfl ∧
    (Evaluator.Print signAgreement
        (⟨[], ⟨1, false⟩, [0], 1, [[[0]]]⟩ : Evaluator Unit Int Int)
        ⟨[], {FmtFlag.skipws, FmtFlag.dec}, 6⟩).2.fmtfl
      = {FmtFlag.skipws, FmtFlag.dec, FmtFlag.fixed} ∧
    (Evaluator.Print signAgreement
        (⟨[], ⟨1, false⟩, [0], 1, [[[0]]]⟩ : Evaluator Unit Int Int)
        ⟨[], {FmtFlag.skipws, FmtFlag.dec}, 6⟩).2.prec = 6 := by
  refine ⟨by decide, ?_, ?_, ?_⟩
  · rw [Evaluator.Print_eq]; decide
  · rw [Evaluator.Print_eq]; decide
  · rw [Evaluator.Print_eq]

/-! ## Lines and tokens of the written output -/

theorem splitOnP_lines {α : Type} (p : α → Bool) (sep : α) (hsep : p sep = true)
    (rows : List (List α)) (hrows : ∀ row ∈ rows, ∀ y ∈ row, ¬ p y = true)
    (header : List α) (hheader : ∀ y ∈ header, ¬ p y = true) :
    (header ++ rows.flatMap (fun row => sep :: row)).splitOnP p = header :: rows := by
  induction rows generalizing header with
  | nil =>
    simp only [List.flatMap_nil, List.append_nil]
    exact List.splitOnP_eq_single p header hheader
  | cons row rest ih =>
    simp only [List.flatMap_cons, List.cons_append]
    rw [List.splitOnP_first p header hheader sep hsep,
      ih (fun r hr => hrows r (List.mem_cons_of_mem row hr)) row
        (hrows row (List.mem_cons_self row rest))]

theorem mem_intersperse_tab {items : List (Inserted ρ)} {y : Inserted ρ}
    (hy : y ∈ items.intersperse (Inserted.char '\t')) : y = Inserted.char '\t' ∨ y ∈ items := by
  cases items with
  | nil => simp at hy
  | cons x xs =>
    rw [intersperse_cons_eq_flatMap] at hy
    simp only [List.mem_cons, List.mem_flatMap, List.mem_singleton, List.not_mem_nil,
      or_false] at hy
    rcases hy with h | ⟨z, hz, h | h⟩
    · exact Or.inr (by simp [h])
    · exact Or.inl h
    · exact Or.inr (by simp [h, hz])

/-- In a reachable state every snapshot of the history is the row of `GetResult()` values of
the aggregators of `_aggregatorTuple`. -/
theorem Evaluator.Reachable.values_eq [Zero ρ] {A : Aggregator σ ρ} {e : Evaluator δ ρ σ}
    (h : Evaluator.Reachable A e) :
    ∀ row ∈ e._values, row = e._aggregatorTuple.map A.GetResult := by
  induction h with
  | construct anyDataset evaluatorParameters aggregator aggregators =>
    intro row hrow
    rw [Evaluator.construct_values] at hrow
    cases hz : evaluatorParameters.addZeroEvaluation
    · simp [hz] at hrow
    · simp only [hz, if_true, List.mem_singleton] at hrow
      simp [hrow, Evaluator.construct, hz, Evaluator.EvaluateZero_eq]
  | Evaluate e predictor _ ih =>
    intro row hrow
    rw [Evaluator.Evaluate_aggregatorTuple]
    by_cases hg : (e._evaluateCounter + 1) % e._evaluatorParameters.evaluationFrequency = 0
    · rw [Evaluator.Evaluate_of_round A e predictor hg] at hrow
      simp only [List.mem_append, List.mem_singleton] at hrow
      rcases hrow with h1 | h1
      · exact ih row h1
      · exact h1
    · rw [Evaluator.Evaluate_of_skip A e predictor hg] at hrow
      exact ih row hrow

/-! ## The written text -/

theorem writtenText_append (render : Finset FmtFlag → Nat → ρ → String)
    (a b : List (Inserted ρ)) :
    writtenText render (a ++ b) = writtenText render a ++ writtenText render b := by
  simp [writtenText]

/-- The text of items written with a tab between neighbours is the texts of the items joined
by the tab character. -/
theorem writtenText_intersperse_tab (render : Finset FmtFlag → Nat → ρ → String)
    (items : List (Inserted ρ)) :
    writtenText render (items.intersperse (Inserted.char '\t'))
      = ['\t'].intercalate (items.map (Inserted.characters render)) := by
  cases items with
  | nil => rfl
  | cons x xs =>
    induction xs generalizing x with
    | nil => simp [writtenText, List.intercalate]
    | cons y ys ih =>
      have h := ih y
      simp only [writtenText, List.intercalate, List.map_cons, List.intersperse_cons_cons,
        List.flatMap_cons, List.flatten_cons] at h ⊢
      rw [h]
      simp [Inserted.characters]

theorem not_mem_writtenText_intersperse_tab (render : Finset FmtFlag → Nat → ρ → String)
    (c : Char) (hc : c ≠ '\t') (items : List (Inserted ρ))
    (hitems : ∀ item ∈ items, c ∉ Inserted.characters render item) :
    c ∉ writtenText render (items.intersperse (Inserted.char '\t')) := by
  intro h
  simp only [writtenText, List.mem_flatMap] at h
  obtain ⟨item, hitem, hmem⟩ := h
  rcases mem_intersperse_tab hitem with h1 | h1
  · rw [h1] at hmem
    simp only [Inserted.characters, List.mem_singleton] at hmem
    exact hc hmem
  · exact hitems item h1 hmem

theorem tokenCount_intercalate (pieces : List (List Char))
    (hpieces : ∀ piece ∈ pieces, piece ≠ [] ∧ '\t' ∉ piece) :
    tokenCount (['\t'].intercalate pieces) = pieces.length := by
  cases pieces with
  | nil => rfl
  | cons piece rest =>
    have hne : ['\t'].intercalate (piece :: rest) ≠ [] := by
      obtain ⟨c, cs, hc⟩ := List.exists_cons_of_ne_nil
        (hpieces piece (List.mem_cons_self piece rest)).1
      cases rest with
      | nil => simp [List.intercalate, hc]
      | cons q qs => simp [List.intercalate, hc]
    unfold tokenCount
    rw [if_neg (by simpa using hne),
      List.splitOn_intercalate (piece :: rest) '\t' (fun l hl => (hpieces l hl).2)
        (List.cons_ne_nil _ _)]

/-- The text that `Print` appends to a stream: the header text and, for each snapshot, a line
break and the text of its values. -/
theorem Evaluator.Print_text (render : Finset FmtFlag → Nat → ρ → String)
    (A : Aggregator σ ρ) (e : Evaluator δ ρ σ) (os : OStream ρ) :
    writtenText render ((e.Print A os).2.written.drop os.written.length) =
      writtenText render (tabJoinedNames (e.GetValueNames A).flatten) ++
        (e._values.map (fun values => writtenText render
          (tabJoinedValues (os.fmtfl ∪ {FmtFlag.fixed}) 6 values.flatten))).flatMap
            (fun row => '\n' :: row) := by
  rw [Evaluator.Print_eq]
  simp only [List.drop_left, writtenText_append]
  congr 1
  induction e._values with
  | nil => rfl
  | cons values rest ih =>
    simp only [List.flatMap_cons, List.map_cons, writtenText_append, ih]
    simp [writtenText, Inserted.characters]

/-- The lines of the text that `Print` appends, when neither a value name nor a rendered value
of the history holds a line break: the header text and the text of each snapshot. -/
theorem Evaluator.Print_textLines (render : Finset FmtFlag → Nat → ρ → String)
    (A : Aggregator σ ρ) (e : Evaluator δ ρ σ) (os : OStream ρ)
    (hnames : ∀ group ∈ e.GetValueNames A, ∀ name ∈ group, '\n' ∉ name.toList)
    (hrender : ∀ values ∈ e._values, ∀ group ∈ values, ∀ v ∈ group,
      '\n' ∉ (render (os.fmtfl ∪ {FmtFlag.fixed}) 6 v).toList) :
    textLines (writtenText render ((e.Print A os).2.written.drop os.written.length)) =
      writtenText render (tabJoinedNames (e.GetValueNames A).flatten) ::
        e._values.map (fun values => writtenText render
          (tabJoinedValues (os.fmtfl ∪ {FmtFlag.fixed}) 6 values.flatten)) := by
  rw [Evaluator.Print_text]
  unfold textLines List.splitOn
  apply splitOnP_lines (fun c => c == '\n') '\n' (by simp)
  · intro row hrow c hc
    simp only [List.mem_map] at hrow
    obtain ⟨values, hvalues, rfl⟩ := hrow
    simp only [beq_iff_eq]
    intro hceq
    subst hceq
    refine not_mem_writtenText_intersperse_tab render '\n' (by decide) _ ?_ hc
    intro item hitem
    simp only [List.mem_map, List.mem_flatten] at hitem
    obtain ⟨v, ⟨group, hgroup, hv⟩, rfl⟩ := hitem
    exact hrender values hvalues group hgroup v hv
  · intro c hc
    simp only [beq_iff_eq]
    intro hceq
    subst hceq
    refine not_mem_writtenText_intersperse_tab render '\n' (by decide) _ ?_ hc
    intro item hitem
    simp only [List.mem_map, List.mem_flatten] at hitem
    obtain ⟨name, ⟨group, hgroup, hname⟩, rfl⟩ := hitem
    exact hnames group hgroup name hname

/-- C8, counterexample: an evaluator with one aggregator that has one value name, `"a\tb"`, and
one result, after the zero evaluation. The header line that `Print` writes is `a`, tab, `b`:
two tab-separated tokens for one metric value, while the data line has one token. With the
empty string as the value name the header line is the empty line, again for one metric value
and a data line of one token. -/
theorem Evaluator.Print_tab_in_name :
    (∀ s ∈ (Evaluator.run (namedAggregator "a\tb") ([⟨(), 1, 1⟩] : List (Example Unit Int))
        ⟨1, true⟩ 0 [] [])._aggregatorTuple,
      ((namedAggregator "a\tb").GetValueNames s).length
        = ((namedAggregator "a\tb").GetResult s).length) ∧
    textLines (writtenText fixedPointText
        (((Evaluator.run (namedAggregator "a\tb") ([⟨(), 1, 1⟩] : List (Example Unit Int))
          ⟨1, true⟩ 0 [] []).Print (namedAggregator "a\tb") ⟨[], ∅, 6⟩).2.written.drop 0))
      = [['a', '\t', 'b'], "0.000000".toList] ∧
    tokenCount ['a', '\t', 'b'] = 2 ∧
    tokenCount "0.000000".toList = 1 ∧
    (((Evaluator.run (namedAggregator "a\tb") ([⟨(), 1, 1⟩] : List (Example Unit Int))
        ⟨1, true⟩ 0 [] []).GetValueNames (namedAggregator "a\tb")).map List.length).sum = 1 ∧
    textLines (writtenText fixedPointText
        (((Evaluator.run (namedAggregator "") ([⟨(), 1, 1⟩] : List (Example Unit Int))
          ⟨1, true⟩ 0 [] []).Print (namedAggregator "") ⟨[], ∅, 6⟩).2.written.drop 0))
      = [[], "0.000000".toList] ∧
    tokenCount [] = 0 ∧
    (((Evaluator.run (namedAggregator "") ([⟨(), 1, 1⟩] : List (Example Unit Int))
        ⟨1, true⟩ 0 [] []).GetValueNames (namedAggregator "")).map List.length).sum = 1 := by
  refine ⟨?_, ?_, ?_, ?_, ?_, ?_, ?_, ?_⟩ <;> decide

/-- C8, amended: for an evaluator in a reachable state whose aggregators satisfy
`len(GetValueNames()) = len(GetResult())` and whose value names are non-empty and hold no tab
and no line break (the values of the history being rendered likewise), the text that `Print`
writes splits into a header line and one data line per snapshot; the tab-separated token count
of the header is the total number of value names over all aggregators, and every data line has
the token count of the header. -/
theorem Evaluator.Print_text_token_counts [Zero ρ] (render : Finset FmtFlag → Nat → ρ → String)
    (A : Aggregator σ ρ) (e : Evaluator δ ρ σ) (os : OStream ρ)
    (hreach : Evaluator.Reachable A e)
    (hcontract : ∀ s ∈ e._aggregatorTuple, (A.GetValueNames s).length = (A.GetResult s).length)
    (hnames : ∀ group ∈ e.GetValueNames A, ∀ name ∈ group,
      name.toList ≠ [] ∧ '\t' ∉ name.toList ∧ '\n' ∉ name.toList)
    (hrender : ∀ values ∈ e._values, ∀ group ∈ values, ∀ v ∈ group,
      (render (os.fmtfl ∪ {FmtFlag.fixed}) 6 v).toList ≠ [] ∧
      '\t' ∉ (render (os.fmtfl ∪ {FmtFlag.fixed}) 6 v).toList ∧
      '\n' ∉ (render (os.fmtfl ∪ {FmtFlag.fixed}) 6 v).toList) :
    ∃ (header : List Char) (dataLines : List (List Char)),
      textLines (writtenText render ((e.Print A os).2.written.drop os.written.length))
        = header :: dataLines ∧
      tokenCount header = ((e.GetValueNames A).map List.length).sum ∧
      dataLines.length = e._values.length ∧
      ∀ line ∈ dataLines, tokenCount line = tokenCount header := by
  have hheader : tokenCount (writtenText render
      (tabJoinedNames (e.GetValueNames A).flatten : List (Inserted ρ)))
        = ((e.GetValueNames A).map List.length).sum := by
    unfold tabJoinedNames
    rw [writtenText_intersperse_tab, tokenCount_intercalate, List.length_map, List.length_map,
      List.length_flatten]
    intro piece hpiece
    simp only [List.map_map, List.mem_map, List.mem_flatten] at hpiece
    obtain ⟨name, ⟨group, hgroup, hname⟩, rfl⟩ := hpiece
    exact ⟨(hnames group hgroup name hname).1, (hnames group hgroup name hname).2.1⟩
  refine ⟨_, _, Evaluator.Print_textLines render A e os
    (fun group hgroup name hname => (hnames group hgroup name hname).2.2)
    (fun values hvalues group hgroup v hv => (hrender values hvalues group hgroup v hv).2.2),
    hheader, by simp, ?_⟩
  intro line hline
  simp only [List.mem_map] at hline
  obtain ⟨values, hvalues, rfl⟩ := hline
  rw [hheader]
  unfold tabJoinedValues
  rw [writtenText_intersperse_tab, tokenCount_intercalate, List.length_map, List.length_map,
    List.length_flatten, hreach.values_eq values hvalues]
  · simp only [Evaluator.GetValueNames, Evaluator.DispatchGetValueNames, List.map_map]
    congr 1
    apply List.map_congr_left
    intro s hs
    exact (hcontract s hs).symm
  · intro piece hpiece
    simp only [List.map_map, List.mem_map, List.mem_flatten] at hpiece
    obtain ⟨v, ⟨group, hgroup, hv⟩, rfl⟩ := hpiece
    exact ⟨(hrender values hvalues group hgroup v hv).1,
      (hrender values hvalues group hgroup v hv).2.1⟩

/-- Witness of C8: the two-valued aggregator next to itself, the zero evaluation and one
further round, printed after earlier output with the fixed-point text of integers. -/
theorem Evaluator.Print_text_token_counts_witness :
    ∃ (header : List Char) (dataLines : List (List Char)),
      textLines (writtenText fixedPointText
        (((Evaluator.Evaluate countAndSum
            (Evaluator.construct countAndSum ([⟨(), 1, 1⟩] : List (Example Unit Int)) ⟨1, true⟩
              (0, 0) [(2, 3)]) (fun _ => 1)).1.Print countAndSum
          ⟨[Inserted.text "log"], ∅, 3⟩).2.written.drop
          (⟨[Inserted.text "log"], ∅, 3⟩ : OStream Int).written.length))
        = header :: dataLines ∧
      tokenCount header =
        (((Evaluator.Evaluate countAndSum
            (Evaluator.construct countAndSum ([⟨(), 1, 1⟩] : List (Example Unit Int)) ⟨1, true⟩
              (0, 0) [(2, 3)]) (fun _ => 1)).1.GetValueNames countAndSum).map List.length).sum ∧
      dataLines.length =
        (Evaluator.Evaluate countAndSum
            (Evaluator.construct countAndSum ([⟨(), 1, 1⟩] : List (Example Unit Int)) ⟨1, true⟩
              (0, 0) [(2, 3)]) (fun _ => 1)).1._values.length ∧
      ∀ line ∈ dataLines, tokenCount line = tokenCount header :=
  Evaluator.Print_text_token_counts fixedPointText countAndSum
    (Evaluator.Evaluate countAndSum
      (Evaluator.construct countAndSum ([⟨(), 1, 1⟩] : List (Example Unit Int)) ⟨1, true⟩
        (0, 0) [(2, 3)]) (fun _ => 1)).1
    ⟨[Inserted.text "log"], ∅, 3⟩
    (Evaluator.Reachable.Evaluate _ _ (Evaluator.Reachable.construct _ _ _ _))
    (fun _ _ => rfl) (by decide) (by decide)

/-- C9, counterexample: an evaluator with one aggregator whose value name is `"a\nb"`, after
the zero evaluation, so with a history of one snapshot. The text that `Print` writes has three
lines, `a`, `b` and the line of the snapshot, where one header line and one line per snapshot
would be two. -/
theorem Evaluator.Print_line_break_in_name :
    (Evaluator.run (namedAggregator "a\nb") ([⟨(), 1, 1⟩] : List (Example Unit Int))
        ⟨1, true⟩ 0 [] [])._values.length = 1 ∧
    textLines (writtenText fixedPointText
        (((Evaluator.run (namedAggregator "a\nb") ([⟨(), 1, 1⟩] : List (Example Unit Int))
          ⟨1, true⟩ 0 [] []).Print (namedAggregator "a\nb") ⟨[], ∅, 6⟩).2.written.drop 0))
      = [['a'], ['b'], "0.000000".toList] ∧
    (textLines (writtenText fixedPointText
        (((Evaluator.run (namedAggregator "a\nb") ([⟨(), 1, 1⟩] : List (Example Unit Int))
          ⟨1, true⟩ 0 [] []).Print (namedAggregator "a\nb") ⟨[], ∅, 6⟩).2.written.drop 0))).length
      ≠ 1 + (Evaluator.run (namedAggregator "a\nb") ([⟨(), 1, 1⟩] : List (Example Unit Int))
        ⟨1, true⟩ 0 [] [])._values.length := by
  refine ⟨?_, ?_, ?_⟩ <;> decide

/-- C9, amended: `Print` appends to the stream the tab-joined flattened `GetValueNames()` and
then, for each snapshot of the history from oldest to newest, a line break and the tab-joined
flattened values of that snapshot; when no value name holds a line break (nor a rendered value
of the history), the lines of the written text are the header line followed by one line per
snapshot in history order, `1 + k` lines for a history of length `k`. -/
theorem Evaluator.Print_text_lines (render : Finset FmtFlag → Nat → ρ → String)
    (A : Aggregator σ ρ) (e : Evaluator δ ρ σ) (os : OStream ρ)
    (hnames : ∀ group ∈ e.GetValueNames A, ∀ name ∈ group, '\n' ∉ name.toList)
    (hrender : ∀ values ∈ e._values, ∀ group ∈ values, ∀ v ∈ group,
      '\n' ∉ (render (os.fmtfl ∪ {FmtFlag.fixed}) 6 v).toList) :
    (e.Print A os).2.written =
      os.written ++ (tabJoinedNames (e.GetValueNames A).flatten ++
        e._values.flatMap (fun values =>
          Inserted.endl :: tabJoinedValues (os.fmtfl ∪ {FmtFlag.fixed}) 6 values.flatten)) ∧
    textLines (writtenText render ((e.Print A os).2.written.drop os.written.length)) =
      writtenText render (tabJoinedNames (e.GetValueNames A).flatten) ::
        e._values.map (fun values => writtenText render
          (tabJoinedValues (os.fmtfl ∪ {FmtFlag.fixed}) 6 values.flatten)) ∧
    (textLines (writtenText render ((e.Print A os).2.written.drop os.written.length))).length
      = 1 + e._values.length := by
  refine ⟨by rw [Evaluator.Print_eq], Evaluator.Print_textLines render A e os hnames hrender, ?_⟩
  rw [Evaluator.Print_textLines render A e os hnames hrender]
  simp [Nat.add_comm]

/-- Witness of C9: the sign-agreement aggregator after the zero evaluation and one further
round, printed with the fixed-point text of integers: three lines for two snapshots. -/
theorem Evaluator.Print_text_lines_witness :
    (textLines (writtenText fixedPointText
      (((Evaluator.Evaluate signAgreement
          (Evaluator.construct signAgreement ([⟨(), 1, 1⟩] : List (Example Unit Int)) ⟨1, true⟩
            4 []) (fun _ => 1)).1.Print signAgreement ⟨[], ∅, 6⟩).2.written.drop
        (⟨[], ∅, 6⟩ : OStream Int).written.length))).length
      = 1 + (Evaluator.Evaluate signAgreement
          (Evaluator.construct signAgreement ([⟨(), 1, 1⟩] : List (Example Unit Int)) ⟨1, true⟩
            4 []) (fun _ => 1)).1._values.length :=
  (Evaluator.Print_text_lines fixedPointText signAgreement
    (Evaluator.Evaluate signAgreement
      (Evaluator.construct signAgreement ([⟨(), 1, 1⟩] : List (Example Unit Int)) ⟨1, true⟩
        4 []) (fun _ => 1)).1
    ⟨[], ∅, 6⟩ (by decide) (by decide)).2.2

/-- C10: an `Evaluate` call keeps the history it found as a prefix of the history it leaves
and adds at most one snapshot at the end; `GetGoodness` and `Print` leave the history as it
is. -/
theorem Evaluator.history_append_only [Zero ρ] (A : Aggregator σ ρ) (e : Evaluator δ ρ σ)
    (predictor : δ → ρ) (os : OStream ρ) :
    (∃ added : List (List (List ρ)),
      (e.Evaluate A predictor).1._values = e._values ++ added ∧ added.length ≤ 1) ∧
    e.GetGoodness.1._values = e._values ∧
    (e.Print A os).1._values = e._values := by
  refine ⟨Evaluator.Evaluate_values_append A e predictor, ?_, rfl⟩
  unfold Evaluator.GetGoodness
  split <;> rfl

/-! ## The order of the aggregators -/

theorem map_exchange {α β : Type} (f : α → β) (i j : Nat) (l : List α) :
    (exchange i j l).map f = exchange i j (l.map f) := by
  unfold exchange
  rw [List.getElem?_map, List.getElem?_map]
  cases hi : l[i]? <;> cases hj : l[j]? <;> simp [List.map_set]

theorem length_exchange {α : Type} (i j : Nat) (l : List α) :
    (exchange i j l).length = l.length := by
  unfold exchange
  cases hi : l[i]? <;> cases hj : l[j]? <;> simp

theorem getElem?_exchange {α : Type} (i j : Nat) (l : List α) (hi : i < l.length)
    (hj : j < l.length) :
    (exchange i j l)[j]? = l[i]? ∧ (exchange i j l)[i]? = l[j]? := by
  unfold exchange
  rw [List.getElem?_eq_getElem hi, List.getElem?_eq_getElem hj]
  simp only
  constructor
  · rw [List.getElem?_set_self (by simpa using hj)]
  · by_cases h : j = i
    · subst h
      rw [List.getElem?_set_self (by simpa using hj)]
    · rw [List.getElem?_set_ne h, List.getElem?_set_self hi]

theorem Evaluator.construct_aggregatorTuple [Zero ρ] (A : Aggregator σ ρ)
    (anyDataset : List (Example δ ρ)) (evaluatorParameters : EvaluatorParameters)
    (aggregator : σ) (aggregators : List σ) :
    (Evaluator.construct A anyDataset evaluatorParameters aggregator aggregators)._aggregatorTuple
      = aggregator :: aggregators := by
  cases hz : evaluatorParameters.addZeroEvaluation <;>
    simp [Evaluator.construct, hz, Evaluator.EvaluateZero_eq]

theorem Evaluator.EvaluateAll_aggregatorTuple (A : Aggregator σ ρ) (predictors : List (δ → ρ))
    (e : Evaluator δ ρ σ) :
    (e.EvaluateAll A predictors)._aggregatorTuple = e._aggregatorTuple := by
  induction predictors generalizing e with
  | nil => rfl
  | cons p ps ih =>
    simp only [Evaluator.EvaluateAll, List.foldl_cons]
    exact (ih (e.Evaluate A p).1).trans (Evaluator.Evaluate_aggregatorTuple A e p)

theorem Evaluator.Reachable.EvaluateAll [Zero ρ] {A : Aggregator σ ρ} {e : Evaluator δ ρ σ}
    (h : Evaluator.Reachable A e) (predictors : List (δ → ρ)) :
    Evaluator.Reachable A (e.EvaluateAll A predictors) := by
  induction predictors generalizing e with
  | nil => exact h
  | cons p ps ih =>
    simp only [Evaluator.EvaluateAll, List.foldl_cons]
    exact ih (Evaluator.Reachable.Evaluate e p h)

/-- The history of a freshly constructed evaluator after a run of `Evaluate` calls: copies of
the row of `GetResult()` values of the aggregators handed to the constructor. -/
theorem Evaluator.construct_EvaluateAll_values [Zero ρ] (A : Aggregator σ ρ)
    (anyDataset : List (Example δ ρ)) (evaluatorParameters : EvaluatorParameters)
    (aggregator : σ) (aggregators : List σ) (predictors : List (δ → ρ)) :
    ((Evaluator.construct A anyDataset evaluatorParameters aggregator aggregators).EvaluateAll A
        predictors)._values
      = List.replicate
          ((if evaluatorParameters.addZeroEvaluation then 1 else 0)
            + predictors.length / evaluatorParameters.evaluationFrequency)
          ((aggregator :: aggregators).map A.GetResult) := by
  have hreach := (Evaluator.Reachable.construct (A := A) anyDataset evaluatorParameters aggregator
    aggregators).EvaluateAll predictors
  have hrows := hreach.values_eq
  rw [Evaluator.EvaluateAll_aggregatorTuple, Evaluator.construct_aggregatorTuple] at hrows
  have hlen := Evaluator.EvaluateAll_values_length A predictors
    (Evaluator.construct A anyDataset evaluatorParameters aggregator aggregators)
  simp only [Evaluator.construct_counter, Evaluator.construct_parameters,
    Evaluator.construct_values, Nat.zero_div, Nat.zero_add, Nat.add_zero] at hlen
  rw [List.eq_replicate_iff]
  refine ⟨?_, hrows⟩
  rw [hlen]
  cases evaluatorParameters.addZeroEvaluation <;> simp

theorem Evaluator.run_values [Zero ρ] (A : Aggregator σ ρ)
    (anyDataset : List (Example δ ρ)) (evaluatorParameters : EvaluatorParameters)
    (aggregator : σ) (aggregators : List σ) (predictors : List (δ → ρ)) :
    (Evaluator.run A anyDataset evaluatorParameters aggregator aggregators predictors)._values
      = List.replicate
          ((if evaluatorParameters.addZeroEvaluation then 1 else 0)
            + predictors.length / evaluatorParameters.evaluationFrequency)
          ((aggregator :: aggregators).map A.GetResult) :=
  Evaluator.construct_EvaluateAll_values A anyDataset evaluatorParameters aggregator aggregators
    predictors

/-- C11: two evaluators built over the same dataset with the same parameters, whose aggregator
packs differ by the exchange of positions `i` and `j`, and driven by the same calls of
`Evaluate`, have histories of equal length; every snapshot of the second is the snapshot of the
first at the same place with the groups `i` and `j` exchanged, so the group of the aggregator
moved from `i` to `j` (and from `j` to `i`) is the same list of values. -/
theorem Evaluator.exchange_aggregators [Zero ρ] (A : Aggregator σ ρ)
    (anyDataset : List (Example δ ρ)) (evaluatorParameters : EvaluatorParameters)
    (aggregator : σ) (aggregators : List σ) (aggregator2 : σ) (aggregators2 : List σ)
    (i j : Nat) (hi : i < (aggregator :: aggregators).length)
    (hj : j < (aggregator :: aggregators).length)
    (hswap : aggregator2 :: aggregators2 = exchange i j (aggregator :: aggregators))
    (predictors : List (δ → ρ)) :
    (Evaluator.run A anyDataset evaluatorParameters aggregator2 aggregators2
        predictors)._values.length
      = (Evaluator.run A anyDataset evaluatorParameters aggregator aggregators
          predictors)._values.length ∧
    (Evaluator.run A anyDataset evaluatorParameters aggregator2 aggregators2 predictors)._values
      = (Evaluator.run A anyDataset evaluatorParameters aggregator aggregators
          predictors)._values.map (exchange i j) ∧
    ∀ (k : Nat) (row row2 : List (List ρ)),
      (Evaluator.run A anyDataset evaluatorParameters aggregator aggregators
          predictors)._values[k]? = some row →
      (Evaluator.run A anyDataset evaluatorParameters aggregator2 aggregators2
          predictors)._values[k]? = some row2 →
      row2 = exchange i j row ∧ row2[j]? = row[i]? ∧ row2[i]? = row[j]? := by
  have hmap : (Evaluator.run A anyDataset evaluatorParameters aggregator2 aggregators2
        predictors)._values
      = (Evaluator.run A anyDataset evaluatorParameters aggregator aggregators
          predictors)._values.map (exchange i j) := by
    rw [Evaluator.run_values, Evaluator.run_values, hswap, map_exchange, List.map_replicate]
  refine ⟨by rw [hmap, List.length_map], hmap, ?_⟩
  intro k row row2 hrow hrow2
  rw [hmap, List.getElem?_map, hrow] at hrow2
  have h2 : row2 = exchange i j row := by simpa using hrow2.symm
  have hlen : row.length = (aggregator :: aggregators).length := by
    rw [Evaluator.run_values] at hrow
    have hmem := List.getElem?_mem hrow
    rw [List.eq_of_mem_replicate hmem, List.length_map]
  rw [h2]
  exact ⟨rfl, getElem?_exchange i j row (hlen ▸ hi) (hlen ▸ hj)⟩

/-- Witness of C11: the two-valued aggregator in two different states, exchanged, with the
zero evaluation and two calls. -/
theorem Evaluator.exchange_aggregators_witness :
    (Evaluator.run countAndSum ([⟨(), 1, 1⟩] : List (Example Unit Int)) ⟨1, true⟩ (2, 3) [(0, 0)]
        [fun _ => 1, fun _ => 0])._values
      = (Evaluator.run countAndSum ([⟨(), 1, 1⟩] : List (Example Unit Int)) ⟨1, true⟩ (0, 0)
          [(2, 3)] [fun _ => 1, fun _ => 0])._values.map (exchange 0 1) :=
  (Evaluator.exchange_aggregators countAndSum ([⟨(), 1, 1⟩] : List (Example Unit Int)) ⟨1, true⟩
    (0, 0) [(2, 3)] (2, 3) [(0, 0)] 0 1 (by decide) (by decide) (by decide)
    [fun _ => 1, fun _ => 0]).2.1

theorem Evaluator.Reachable.aggregatorTuple_ne_nil [Zero ρ] {A : Aggregator σ ρ}
    {e : Evaluator δ ρ σ} (h : Evaluator.Reachable A e) : e._aggregatorTuple ≠ [] := by
  induction h with
  | construct anyDataset evaluatorParameters aggregator aggregators =>
    rw [Evaluator.construct_aggregatorTuple]
    exact List.cons_ne_nil _ _
  | Evaluate e predictor _ ih =>
    rw [Evaluator.Evaluate_aggregatorTuple]
    exact ih

/-- C12: in a reachable state every snapshot of the history has one group per aggregator, as
many groups as `GetValueNames()` has, with the group at each position the `GetResult()` of the
aggregator at that position; and when every aggregator has, in every state, as many value
names as results, the group at each position has the length of the group of names at that
position. -/
theorem Evaluator.snapshot_groups [Zero ρ] (A : Aggregator σ ρ) (e : Evaluator δ ρ σ)
    (hreach : Evaluator.Reachable A e) (row : List (List ρ)) (hrow : row ∈ e._values) :
    row.length = e._aggregatorTuple.length ∧
    row.length = (e.GetValueNames A).length ∧
    (∀ i : Nat, row[i]? = (e._aggregatorTuple[i]?).map A.GetResult) ∧
    ((∀ s : σ, (A.GetValueNames s).length = (A.GetResult s).length) →
      ∀ i : Nat, (row[i]?).map List.length = ((e.GetValueNames A)[i]?).map List.length) := by
  have h := hreach.values_eq row hrow
  subst h
  refine ⟨by simp, by simp [Evaluator.GetValueNames, Evaluator.DispatchGetValueNames], ?_, ?_⟩
  · intro i
    rw [List.getElem?_map]
  · intro hcontract i
    simp only [Evaluator.GetValueNames, Evaluator.DispatchGetValueNames, List.getElem?_map,
      Option.map_map]
    cases e._aggregatorTuple[i]? with
    | none => rfl
    | some s => simp [hcontract s]

/-- Witness of C12: the sign-agreement aggregator next to itself after the zero evaluation and
one further round; the snapshot is the row of the two results. -/
theorem Evaluator.snapshot_groups_witness :
    ([[5], [0]] : List (List Int)).length =
      (Evaluator.run signAgreement ([⟨(), 1, 1⟩] : List (Example Unit Int)) ⟨1, true⟩ 5 [0]
        [fun _ => 1])._aggregatorTuple.length ∧
    ([[5], [0]] : List (List Int)).length =
      ((Evaluator.run signAgreement ([⟨(), 1, 1⟩] : List (Example Unit Int)) ⟨1, true⟩ 5 [0]
        [fun _ => 1]).GetValueNames signAgreement).length ∧
    (∀ i : Nat, ([[5], [0]] : List (List Int))[i]? =
      ((Evaluator.run signAgreement ([⟨(), 1, 1⟩] : List (Example Unit Int)) ⟨1, true⟩ 5 [0]
        [fun _ => 1])._aggregatorTuple[i]?).map signAgreement.GetResult) ∧
    ((∀ s : Int, (signAgreement.GetValueNames s).length = (signAgreement.GetResult s).length) →
      ∀ i : Nat, (([[5], [0]] : List (List Int))[i]?).map List.length =
        (((Evaluator.run signAgreement ([⟨(), 1, 1⟩] : List (Example Unit Int)) ⟨1, true⟩ 5 [0]
          [fun _ => 1]).GetValueNames signAgreement)[i]?).map List.length) :=
  Evaluator.snapshot_groups signAgreement
    (Evaluator.run signAgreement ([⟨(), 1, 1⟩] : List (Example Unit Int)) ⟨1, true⟩ 5 [0]
      [fun _ => 1])
    ((Evaluator.Reachable.construct _ _ _ _).EvaluateAll _) [[5], [0]] (by decide)

/-- C13, the code at a failing input: frequency 1, one example with label 1 and weight 1, the
sign-agreement aggregator handed over in state 7 and a predictor that always answers 1. The
snapshot `[[7]]` is appended, then `Reset` runs on a temporary copy (the function objects called
end in the states 8, from `Update`, and 0, from `Reset`); the evaluator's aggregator is still
in state 7 after the round, while `Reset` gives state 0. -/
theorem Evaluator.Evaluate_reset_lost :
    (Evaluator.Evaluate signAgreement
        (⟨[⟨(), 1, 1⟩], ⟨1, false⟩, [7], 0, []⟩ : Evaluator Unit Int Int)
        (fun _ => 1)).1._aggregatorTuple = [7] ∧
    (Evaluator.Evaluate signAgreement
        (⟨[⟨(), 1, 1⟩], ⟨1, false⟩, [7], 0, []⟩ : Evaluator Unit Int Int) (fun _ => 1)).1._values
      = [[[7]]] ∧
    ((Evaluator.Evaluate signAgreement
        (⟨[⟨(), 1, 1⟩], ⟨1, false⟩, [7], 0, []⟩ : Evaluator Unit Int Int)
        (fun _ => 1)).2.map BoundCall.boundObject) = [8, 0] ∧
    signAgreement.Reset 7 = 0 ∧
    signAgreement.Reset (signAgreement.Update 7 1 1 1) = 0 := by
  refine ⟨?_, ?_, ?_, ?_, ?_⟩ <;> decide

/-- C14: the counter is 0 after construction, with or without the zero evaluation; every call
of `Evaluate` increases it by exactly 1; the zero-evaluation round, `GetGoodness` and `Print`
leave it as it is; so it never decreases and after `n` calls of `Evaluate` on a freshly
constructed evaluator it is `n`. -/
theorem Evaluator.counter_counts_calls [Zero ρ] (A : Aggregator σ ρ)
    (anyDataset : List (Example δ ρ)) (evaluatorParameters : EvaluatorParameters)
    (aggregator : σ) (aggregators : List σ) (e : Evaluator δ ρ σ) (predictor : δ → ρ)
    (os : OStream ρ) (predictors : List (δ → ρ)) :
    (Evaluator.construct A anyDataset evaluatorParameters aggregator
        aggregators)._evaluateCounter = 0 ∧
    (e.Evaluate A predictor).1._evaluateCounter = e._evaluateCounter + 1 ∧
    (e.EvaluateZero A).1._evaluateCounter = e._evaluateCounter ∧
    e.GetGoodness.1._evaluateCounter = e._evaluateCounter ∧
    (e.Print A os).1._evaluateCounter = e._evaluateCounter ∧
    e._evaluateCounter ≤ (e.EvaluateAll A predictors)._evaluateCounter ∧
    (e.EvaluateAll A predictors)._evaluateCounter = e._evaluateCounter + predictors.length ∧
    (Evaluator.run A anyDataset evaluatorParameters aggregator aggregators
        predictors)._evaluateCounter = predictors.length := by
  refine ⟨Evaluator.construct_counter A _ _ _ _, Evaluator.Evaluate_counter A e predictor,
    by rw [Evaluator.EvaluateZero_eq], ?_, rfl, ?_, Evaluator.EvaluateAll_counter A predictors e,
    ?_⟩
  · unfold Evaluator.GetGoodness
    split <;> rfl
  · rw [Evaluator.EvaluateAll_counter]
    exact Nat.le_add_right _ _
  · unfold Evaluator.run
    rw [Evaluator.EvaluateAll_counter, Evaluator.construct_counter, Nat.zero_add]

theorem Evaluator.Reachable.getLast?_values [Zero ρ] {A : Aggregator σ ρ}
    {e : Evaluator δ ρ σ} (h : Evaluator.Reachable A e) (back : List (List ρ))
    (hback : e._values.getLast? = some back) : back = e._aggregatorTuple.map A.GetResult :=
  h.values_eq back (List.mem_of_getLast?_eq_some hback)

/-- C15: in a reachable state the last snapshot of a non-empty history has at least one group;
when the `GetResult()` of the first aggregator is not empty, the access `_values.back()[0][0]`
of `GetGoodness` is within bounds (a value is returned); and after a round in which the
`GetResult()` of the first aggregator is empty, the access is outside the bounds. -/
theorem Evaluator.GetGoodness_bounds [Zero ρ] (A : Aggregator σ ρ) (e : Evaluator δ ρ σ)
    (hreach : Evaluator.Reachable A e) :
    (∀ back : List (List ρ), e._values.getLast? = some back → back ≠ []) ∧
    ((∀ first : σ, e._aggregatorTuple.head? = some first → A.GetResult first ≠ []) →
      ∃ v : ρ, e.GetGoodness.2 = some v) ∧
    (∀ (predictor : δ → ρ) (first : σ), e._aggregatorTuple.head? = some first →
      A.GetResult first = [] →
      (e._evaluateCounter + 1) % e._evaluatorParameters.evaluationFrequency = 0 →
      (e.Evaluate A predictor).1.GetGoodness.2 = none) := by
  have hne := hreach.aggregatorTuple_ne_nil
  obtain ⟨first, rest, htuple⟩ := List.exists_cons_of_ne_nil hne
  refine ⟨?_, ?_, ?_⟩
  · intro back hback
    rw [hreach.getLast?_values back hback, htuple]
    simp
  · intro hfirst
    by_cases hempty : e._values.length = 0
    · exact ⟨0, by simp [Evaluator.GetGoodness, hempty]⟩
    · have hvne : e._values ≠ [] := fun h => hempty (by rw [h]; rfl)
      obtain ⟨back, hback⟩ := Option.isSome_iff_exists.mp
        (by rw [List.getLast?_isSome]; exact hvne : e._values.getLast?.isSome = true)
      have hrow := hreach.getLast?_values back hback
      rw [htuple] at hrow
      have hres := hfirst first (by rw [htuple]; rfl)
      obtain ⟨v, group, hgroup⟩ := List.exists_cons_of_ne_nil hres
      refine ⟨v, ?_⟩
      simp [Evaluator.GetGoodness, hempty, hback, hrow, hgroup]
  · intro predictor first' hhead hres htrigger
    rw [htuple] at hhead
    simp only [List.head?_cons, Option.some.injEq] at hhead
    subst hhead
    rw [Evaluator.Evaluate_of_round A e predictor htrigger]
    simp [Evaluator.GetGoodness, htuple, hres]

/-- Witness of C15: after the zero evaluation with the two-valued aggregator the goodness is
the first value of the first group. -/
theorem Evaluator.GetGoodness_bounds_witness :
    ∃ v : Int,
      (Evaluator.run countAndSum ([⟨(), 1, 1⟩] : List (Example Unit Int)) ⟨1, true⟩ (2, 3)
        [(0, 0)] []).GetGoodness.2 = some v :=
  (Evaluator.GetGoodness_bounds countAndSum
    (Evaluator.run countAndSum ([⟨(), 1, 1⟩] : List (Example Unit Int)) ⟨1, true⟩ (2, 3)
      [(0, 0)] [])
    ((Evaluator.Reachable.construct _ _ _ _).EvaluateAll _)).2.1
    (fun first _ => by simp [countAndSum])

/-! ## Repeated rounds -/

theorem Evaluator.run_concat [Zero ρ] (A : Aggregator σ ρ) (anyDataset : List (Example δ ρ))
    (evaluatorParameters : EvaluatorParameters) (aggregator : σ) (aggregators : List σ)
    (predictors : List (δ → ρ)) (predictor : δ → ρ) :
    Evaluator.run A anyDataset evaluatorParameters aggregator aggregators
        (predictors ++ [predictor])
      = ((Evaluator.run A anyDataset evaluatorParameters aggregator aggregators
          predictors).Evaluate A predictor).1 := by
  simp [Evaluator.run, Evaluator.EvaluateAll, List.foldl_append]

/-- The history after a call of `Evaluate` that is a round, in a run. -/
theorem Evaluator.run_round_values [Zero ρ] (A : Aggregator σ ρ)
    (anyDataset : List (Example δ ρ)) (evaluatorParameters : EvaluatorParameters)
    (aggregator : σ) (aggregators : List σ) (predictors : List (δ → ρ)) (predictor : δ → ρ)
    (hround : (predictors.length + 1) % evaluatorParameters.evaluationFrequency = 0) :
    (Evaluator.run A anyDataset evaluatorParameters aggregator aggregators
        (predictors ++ [predictor]))._values
      = (Evaluator.run A anyDataset evaluatorParameters aggregator aggregators
          predictors)._values ++ [(aggregator :: aggregators).map A.GetResult] := by
  have hc : (Evaluator.run A anyDataset evaluatorParameters aggregator aggregators
      predictors)._evaluateCounter = predictors.length := by
    unfold Evaluator.run
    rw [Evaluator.EvaluateAll_counter, Evaluator.construct_counter, Nat.zero_add]
  have hp : (Evaluator.run A anyDataset evaluatorParameters aggregator aggregators
      predictors)._evaluatorParameters = evaluatorParameters := by
    unfold Evaluator.run
    rw [Evaluator.EvaluateAll_parameters, Evaluator.construct_parameters]
  have ht : (Evaluator.run A anyDataset evaluatorParameters aggregator aggregators
      predictors)._aggregatorTuple = aggregator :: aggregators := by
    unfold Evaluator.run
    rw [Evaluator.EvaluateAll_aggregatorTuple, Evaluator.construct_aggregatorTuple]
  rw [Evaluator.run_concat, Evaluator.Evaluate_of_round A _ predictor (by rw [hc, hp]; exact hround),
    ht]

/-- C16, counterexample: the last-label aggregator, whose `Reset` state 0 does not depend on the
state before, handed to the constructor in state 5 with the zero evaluation, frequency 1 and
the dataset of one example with label 1; after one `Evaluate` call with a predictor that always
predicts 0 the history holds two equal snapshots, although state 5 is not the `Reset` state. -/
theorem Evaluator.equal_snapshots_without_reset_state :
    (∀ s t : Int, lastLabel.Reset s = lastLabel.Reset t) ∧
    (Evaluator.run lastLabel ([⟨(), 1, 1⟩] : List (Example Unit Int)) ⟨1, true⟩ 5 []
        [fun _ => 0])._values = [[[5]], [[5]]] ∧
    ¬ ((Evaluator.run lastLabel ([⟨(), 1, 1⟩] : List (Example Unit Int)) ⟨1, true⟩ 5 []
          [fun _ => 0])._values[1]?
        = (Evaluator.run lastLabel ([⟨(), 1, 1⟩] : List (Example Unit Int)) ⟨1, true⟩ 5 []
          [fun _ => 0])._values[0]? →
      ∀ s ∈ [(5 : Int)], lastLabel.Reset s = s) := by
  refine ⟨fun _ _ => rfl, by decide, ?_⟩
  intro h
  have h5 := h (by decide) 5 (by simp)
  revert h5
  decide

/-- C16, amended: when the `Reset` of the aggregators gives a state that does not depend on the
state before, two calls of `Evaluate` that are rounds, made after a first round (the zero
round included) with predictors that agree on every example of the dataset, append the same
snapshot; and with `addZeroEvaluation` set and the aggregators handed to the constructor in
their `Reset` state, a later round with a predictor that predicts 0 on every example appends a
snapshot equal to the zero-round snapshot. -/
theorem Evaluator.rounds_repeatable [Zero ρ] (A : Aggregator σ ρ)
    (anyDataset : List (Example δ ρ)) (evaluatorParameters : EvaluatorParameters)
    (aggregator : σ) (aggregators : List σ)
    (_hReset : ∀ s t : σ, A.Reset s = A.Reset t) :
    (∀ (before between : List (δ → ρ)) (p1 p2 : δ → ρ),
      (Evaluator.run A anyDataset evaluatorParameters aggregator aggregators before)._values
        ≠ [] →
      (before.length + 1) % evaluatorParameters.evaluationFrequency = 0 →
      ((before ++ [p1] ++ between).length + 1) % evaluatorParameters.evaluationFrequency = 0 →
      (∀ ex ∈ anyDataset, p1 ex.dataVector = p2 ex.dataVector) →
      ∃ snapshot : List (List ρ),
        (Evaluator.run A anyDataset evaluatorParameters aggregator aggregators
            (before ++ [p1]))._values
          = (Evaluator.run A anyDataset evaluatorParameters aggregator aggregators
              before)._values ++ [snapshot] ∧
        (Evaluator.run A anyDataset evaluatorParameters aggregator aggregators
            (before ++ [p1] ++ between ++ [p2]))._values
          = (Evaluator.run A anyDataset evaluatorParameters aggregator aggregators
              (before ++ [p1] ++ between))._values ++ [snapshot]) ∧
    (evaluatorParameters.addZeroEvaluation = true →
      (∀ s ∈ aggregator :: aggregators, A.Reset s = s) →
      ∀ (before : List (δ → ρ)) (p : δ → ρ),
        (before.length + 1) % evaluatorParameters.evaluationFrequency = 0 →
        (∀ ex ∈ anyDataset, p ex.dataVector = 0) →
        ∃ snapshot : List (List ρ),
          (Evaluator.run A anyDataset evaluatorParameters aggregator aggregators [])._values
            = [snapshot] ∧
          (Evaluator.run A anyDataset evaluatorParameters aggregator aggregators
              (before ++ [p]))._values
            = (Evaluator.run A anyDataset evaluatorParameters aggregator aggregators
                before)._values ++ [snapshot]) := by
  constructor
  · intro before between p1 p2 _ h1 h2 _
    exact ⟨(aggregator :: aggregators).map A.GetResult,
      Evaluator.run_round_values A anyDataset evaluatorParameters aggregator aggregators before
        p1 h1,
      Evaluator.run_round_values A anyDataset evaluatorParameters aggregator aggregators
        (before ++ [p1] ++ between) p2 h2⟩
  · intro hz _ before p h1 _
    refine ⟨(aggregator :: aggregators).map A.GetResult, ?_,
      Evaluator.run_round_values A anyDataset evaluatorParameters aggregator aggregators before
        p h1⟩
    rw [Evaluator.run_values, hz]
    simp

/-- Witness of C16: the sign-agreement aggregator in its `Reset` state, the zero evaluation
and frequency 2; the second and the fourth call are rounds and append the same snapshot. -/
theorem Evaluator.rounds_repeatable_witness :
    ∃ snapshot : List (List Int),
      (Evaluator.run signAgreement ([⟨(), 1, 1⟩] : List (Example Unit Int)) ⟨2, true⟩ 0 []
          ([fun _ => 0] ++ [fun _ => 1]))._values
        = (Evaluator.run signAgreement ([⟨(), 1, 1⟩] : List (Example Unit Int)) ⟨2, true⟩ 0 []
            [fun _ => 0])._values ++ [snapshot] ∧
      (Evaluator.run signAgreement ([⟨(), 1, 1⟩] : List (Example Unit Int)) ⟨2, true⟩ 0 []
          ([fun _ => 0] ++ [fun _ => 1] ++ [fun _ => 0] ++ [fun _ => 1]))._values
        = (Evaluator.run signAgreement ([⟨(), 1, 1⟩] : List (Example Unit Int)) ⟨2, true⟩ 0 []
            ([fun _ => 0] ++ [fun _ => 1] ++ [fun _ => 0]))._values ++ [snapshot] :=
  (Evaluator.rounds_repeatable signAgreement ([⟨(), 1, 1⟩] : List (Example Unit Int)) ⟨2, true⟩
    0 [] (fun _ _ => rfl)).1 [fun _ => 0] [fun _ => 0] (fun _ => 1) (fun _ => 1)
    (by decide) (by decide) (by decide) (fun _ _ => rfl)

/-! ## The two helpers of `Print` -/

theorem filter_intersperse {α : Type} (p : α → Bool) (sep : α) (hsep : p sep = true)
    (l : List α) (hfree : ∀ y ∈ l, p y = false) :
    ((l.intersperse sep).filter p).length = l.length - 1 ∧
    (l.intersperse sep).filter (fun y => !p y) = l := by
  cases l with
  | nil => simp
  | cons x xs =>
    rw [intersperse_cons_eq_flatMap]
    have hx : p x = false := hfree x (List.mem_cons_self x xs)
    have hxs : ∀ y ∈ xs, p y = false := fun y hy => hfree y (List.mem_cons_of_mem x hy)
    have hrest : ((xs.flatMap (fun y => [sep, y])).filter p).length = xs.length ∧
        (xs.flatMap (fun y => [sep, y])).filter (fun y => !p y) = xs := by
      clear hfree hx
      induction xs with
      | nil => simp
      | cons z zs ih =>
        have hz : p z = false := hxs z (List.mem_cons_self z zs)
        have hzs := ih (fun y hy => hxs y (List.mem_cons_of_mem z hy))
        simp only [List.flatMap_cons, List.cons_append, List.nil_append]
        rw [List.filter_cons_of_pos hsep, List.filter_cons_of_neg (by simp [hz]),
          List.filter_cons_of_neg (by simp [hsep]), List.filter_cons_of_pos (by simp [hz])]
        exact ⟨by rw [List.length_cons, hzs.1, List.length_cons], by rw [hzs.2]⟩
    rw [List.filter_cons_of_neg (by simp [hx]), List.filter_cons_of_pos (by simp [hx])]
    exact ⟨by rw [hrest.1]; simp, by rw [hrest.2]⟩

/-- C17: `FlattenJaggedVector` returns the concatenation of the inner vectors from left to
right, so its length is the sum of the inner lengths, the flattening of two jagged vectors one
after the other is the flattening of the first followed by that of the second, and an empty
inner vector contributes nothing; `PrintVector` writes nothing for an empty vector, and for a
vector of `n` elements it appends the elements in order with a tab between neighbours, `n - 1`
tabs in all. -/
theorem FlattenJaggedVector_PrintVector_spec {T : Type} (v front back : List (List T))
    (os : OStream ρ) (names : List String) (values : List ρ) :
    FlattenJaggedVector v = v.flatten ∧
    (FlattenJaggedVector v).length = (v.map List.length).sum ∧
    FlattenJaggedVector (front ++ back) = FlattenJaggedVector front ++ FlattenJaggedVector back ∧
    FlattenJaggedVector (front ++ [[]] ++ back) = FlattenJaggedVector (front ++ back) ∧
    PrintVector OStream.insertString os [] = os ∧
    PrintVector OStream.insertDouble os [] = os ∧
    (PrintVector OStream.insertString os names).written
      = os.written ++ (names.map Inserted.text).intersperse (Inserted.char '\t') ∧
    (((PrintVector OStream.insertString os names).written.drop os.written.length).filter
        Inserted.isTab).length = names.length - 1 ∧
    ((PrintVector OStream.insertString os names).written.drop os.written.length).filter
        (fun item => !item.isTab) = names.map Inserted.text ∧
    (PrintVector OStream.insertDouble os values).written
      = os.written ++ (values.map (fun x => Inserted.number x os.fmtfl os.prec)).intersperse
          (Inserted.char '\t') ∧
    (((PrintVector OStream.insertDouble os values).written.drop os.written.length).filter
        Inserted.isTab).length = values.length - 1 ∧
    ((PrintVector OStream.insertDouble os values).written.drop os.written.length).filter
        (fun item => !item.isTab) = values.map (fun x => Inserted.number x os.fmtfl os.prec) := by
  have hnames := filter_intersperse Inserted.isTab (Inserted.char '\t' : Inserted ρ)
    (by simp [Inserted.isTab]) (names.map Inserted.text)
    (by
      intro y hy
      simp only [List.mem_map] at hy
      obtain ⟨s, _, rfl⟩ := hy
      rfl)
  have hvalues := filter_intersperse Inserted.isTab (Inserted.char '\t' : Inserted ρ)
    (by simp [Inserted.isTab]) (values.map (fun x => Inserted.number x os.fmtfl os.prec))
    (by
      intro y hy
      simp only [List.mem_map] at hy
      obtain ⟨s, _, rfl⟩ := hy
      rfl)
  rw [List.length_map] at hnames hvalues
  refine ⟨FlattenJaggedVector_eq_flatten v, ?_, ?_, ?_, rfl, rfl, ?_, ?_, ?_, ?_, ?_, ?_⟩
  · rw [FlattenJaggedVector_eq_flatten, List.length_flatten]
  · simp [FlattenJaggedVector_eq_flatten]
  · simp [FlattenJaggedVector_eq_flatten]
  · rw [PrintVector_insertString]; rfl
  · rw [PrintVector_insertString]
    simp only [List.drop_left]
    exact hnames.1
  · rw [PrintVector_insertString]
    simp only [List.drop_left]
    exact hnames.2
  · rw [PrintVector_insertDouble]; rfl
  · rw [PrintVector_insertDouble]
    simp only [List.drop_left]
    exact hvalues.1
  · rw [PrintVector_insertDouble]
    simp only [List.drop_left]
    exact hvalues.2

end evaluators
end ell
